import Mathlib

/-!
# ICP residual functors of `include/algorithms.h`

A shallow embedding of the six cost functors of namespace `ICPCostFunctions`
(`PointToPointErrorGlobal`, `PointToPlaneErrorGlobal`,
`PointToPointError_EigenQuaternion`, `PointToPointError_CeresAngleAxis`,
`PointToPlaneError`, `PointToPlaneError_EigenQuaternion`).

The functors are C++ templates over a scalar type `T` (a `double` or an
automatic-differentiation jet).  The embedding keeps the template parameter:
every definition is generic in a commutative ring `T`, so it can be evaluated on
`ℚ` and reasoned about on `ℝ`.  Rounding is not modelled: the scalar operations
are the exact ring operations, and the stored `double` coordinates are taken to
be values of `T` already (the source converts them with `T(...)`).

A parameter block (`const T* const`) is a finite map `Fin n → T`;
`operator()` returns the pair of its `bool` result and the residuals it writes.
-/

namespace ICPCostFunctions

/-! ## Data model -/

/-- Column vector `Eigen::Matrix<T,3,1>` (also used for a C array `T p[3]`);
`x`, `y`, `z` are the entries `[0]`, `[1]`, `[2]`. -/
@[ext]
structure Vec3 (T : Type) where
  x : T
  y : T
  z : T
deriving DecidableEq

/-- Coefficients of an `Eigen::Quaternion<T>`, in the storage order of Eigen,
`x, y, z, w` (vector part first, scalar part `w` last). -/
@[ext]
structure Quat (T : Type) where
  x : T
  y : T
  z : T
  w : T
deriving DecidableEq

namespace Vec3

variable {T : Type}

/-- Entry-wise sum, Eigen `a + b`. -/
instance instAdd [Add T] : Add (Vec3 T) :=
  ⟨fun a b => ⟨a.x + b.x, a.y + b.y, a.z + b.z⟩⟩

/-- Entry-wise difference, Eigen `a - b`. -/
instance instSub [Sub T] : Sub (Vec3 T) :=
  ⟨fun a b => ⟨a.x - b.x, a.y - b.y, a.z - b.z⟩⟩

/-- Entry-wise negation. -/
instance instNeg [Neg T] : Neg (Vec3 T) :=
  ⟨fun a => ⟨-a.x, -a.y, -a.z⟩⟩

/-- Scalar times vector, Eigen `c * v`. -/
instance instSMul [Mul T] : SMul T (Vec3 T) :=
  ⟨fun c v => ⟨c * v.x, c * v.y, c * v.z⟩⟩

/-- The zero vector. -/
instance instZero [Zero T] : Zero (Vec3 T) :=
  ⟨⟨0, 0, 0⟩⟩

/-- Eigen `a.dot(b)`. -/
def dot [Add T] [Mul T] (a b : Vec3 T) : T :=
  a.x * b.x + a.y * b.y + a.z * b.z

/-- Eigen `a.cross(b)`. -/
def cross [Sub T] [Mul T] (a b : Vec3 T) : Vec3 T :=
  ⟨a.y * b.z - a.z * b.y, a.z * b.x - a.x * b.z, a.x * b.y - a.y * b.x⟩

end Vec3

namespace Quat

variable {T : Type}

/-- Eigen `q.vec()`: the vector part `(x, y, z)`. -/
def vec (q : Quat T) : Vec3 T :=
  ⟨q.x, q.y, q.z⟩

/-- Modelled from the spec: the product `q * v` of an `Eigen::Quaternion<T>`
with a 3-vector is Eigen library code (`QuaternionBase::_transformVector`), not
part of the sources; spec 4.5 describes it as the standard quaternion-vector
rotation and states that the residual never renormalizes.  It is evaluated on
the raw coefficients the way Eigen does,
`uv = vec × v; uv += uv; return v + w * uv + vec × uv`,
that is `v + 2w (u × v) + 2 u × (u × v)`. -/
def transformVector [CommRing T] (q : Quat T) (v : Vec3 T) : Vec3 T :=
  let uv := q.vec.cross v
  let uv := uv + uv
  v + q.w • uv + q.vec.cross uv

end Quat

variable {T : Type}

/-- `Eigen::Map<const Eigen::Quaternion<T> >(block)`: the 4-real block is read
in the coefficient order of Eigen, `block[0..2] = x, y, z` and `block[3] = w`. -/
def mapQuaternion (block : Fin 4 → T) : Quat T :=
  ⟨block 0, block 1, block 2, block 3⟩

/-- `Eigen::Map<const Eigen::Matrix<T,3,1> >(block)`. -/
def mapVector3 (block : Fin 3 → T) : Vec3 T :=
  ⟨block 0, block 1, block 2⟩

/-! ## Library rotations and the rotations of the specification -/

/-- Eigen `q.squaredNorm()`: the sum of the squares of the four coefficients;
a unit quaternion is one with `squaredNorm = 1`. -/
def Quat.squaredNorm [Add T] [Mul T] (q : Quat T) : T :=
  q.x * q.x + q.y * q.y + q.z * q.z + q.w * q.w

/-- The Hamilton quaternion `w + x i + y j + z k` with the given coefficients. -/
def Quat.toHamilton [CommRing T] (q : Quat T) : Quaternion T :=
  ⟨q.w, q.x, q.y, q.z⟩

/-- A 3-vector as a pure (zero scalar part) Hamilton quaternion. -/
def Vec3.toPure [CommRing T] (v : Vec3 T) : Quaternion T :=
  ⟨0, v.x, v.y, v.z⟩

/-- The rotation `R(q)` in the words of the spec (4.5): the standard
quaternion-vector rotation `v ↦ q·v·q⁻¹`, computed with the Hamilton product
and the quaternion inverse; the result is the vector part of the product (its
scalar part is zero, `conjugation_re`). -/
def conjugation [LinearOrderedField T] (q : Quat T) (v : Vec3 T) : Vec3 T :=
  let r := q.toHamilton * v.toPure * (q.toHamilton)⁻¹
  ⟨r.imI, r.imJ, r.imK⟩

/-- The quaternion product `a·b` (Hamilton product, Eigen `a * b`) on
coefficient records, used to state the composition of two rotations. -/
def Quat.mul [CommRing T] (a b : Quat T) : Quat T :=
  ⟨a.w * b.x + a.x * b.w + a.y * b.z - a.z * b.y,
   a.w * b.y + a.y * b.w + a.z * b.x - a.x * b.z,
   a.w * b.z + a.z * b.w + a.x * b.y - a.y * b.x,
   a.w * b.w - a.x * b.x - a.y * b.y - a.z * b.z⟩

/-- The 4-real parameter block holding a quaternion, in the layout
`Eigen::Map` reads: `x, y, z, w`. -/
def Quat.toBlock (q : Quat T) : Fin 4 → T :=
  ![q.x, q.y, q.z, q.w]

/-- The 3-real parameter block holding a vector. -/
def Vec3.toBlock (v : Vec3 T) : Fin 3 → T :=
  ![v.x, v.y, v.z]

/-- Eigen `v.squaredNorm()`: the squared Euclidean length `v · v`. -/
def Vec3.squaredNorm [Add T] [Mul T] (v : Vec3 T) : T :=
  v.dot v

/-- Modelled from the spec: `ceres::AngleAxisRotatePoint(angle_axis, pt, result)`
is Ceres Solver library code (`ceres/rotation.h`), not part of the sources.
Spec 4.5: the first three reals are the axis-angle rotation vector, "magnitude =
angle, direction = axis", applied by "a standard axis-angle rotation formula
(Rodrigues rotation)", with a singularity at angle 0, where the rotation is the
identity.  The definition has the shape of the library routine (squared angle,
unit axis `w`, `w × pt`, `(w · pt)(1 - cos θ)`); the small-angle
cutoff of the library, below which it returns the first-order value `pt + angle_axis × pt`, is
idealised to the exact singularity `θ² = 0`.  The scalar functions `sqrt`,
`cos`, `sin` that the template requires of `T` are parameters. -/
def ceres.AngleAxisRotatePoint [LinearOrderedField T] (sqrt cos sin : T → T)
    (angle_axis : Fin 3 → T) (pt : Vec3 T) : Vec3 T :=
  let theta2 := angle_axis 0 * angle_axis 0 + angle_axis 1 * angle_axis 1 +
    angle_axis 2 * angle_axis 2
  if 0 < theta2 then
    let theta := sqrt theta2
    let costheta := cos theta
    let sintheta := sin theta
    let theta_inverse := 1 / theta
    let w : Vec3 T := ⟨angle_axis 0 * theta_inverse, angle_axis 1 * theta_inverse,
      angle_axis 2 * theta_inverse⟩
    let w_cross_pt : Vec3 T := ⟨w.y * pt.z - w.z * pt.y, w.z * pt.x - w.x * pt.z,
      w.x * pt.y - w.y * pt.x⟩
    let tmp := (w.x * pt.x + w.y * pt.y + w.z * pt.z) * (1 - costheta)
    ⟨pt.x * costheta + w_cross_pt.x * sintheta + w.x * tmp,
     pt.y * costheta + w_cross_pt.y * sintheta + w.y * tmp,
     pt.z * costheta + w_cross_pt.z * sintheta + w.z * tmp⟩
  else
    pt

/-- The Rodrigues rotation `Rod(a)` in the words of the specification:
`v ↦ v·cos θ + (k × v)·sin θ + k·(k·v)·(1 − cos θ)` with `θ = ‖a‖` and
`k = a/θ`, and the identity when `a = 0`. -/
def rodrigues [LinearOrderedField T] (sqrt cos sin : T → T) (a v : Vec3 T) : Vec3 T :=
  if a = 0 then v
  else
    let θ := sqrt (a.dot a)
    let k : Vec3 T := ⟨a.x / θ, a.y / θ, a.z / θ⟩
    cos θ • v + sin θ • k.cross v + (k.dot v * (1 - cos θ)) • k

/-- The quaternion block of the rotation vector `a` in the words of the
specification: vector part `sin(θ/2)·a/θ`, scalar part `cos(θ/2)`, `θ = ‖a‖`,
and the identity quaternion when `a = 0`; laid out `x, y, z, w`. -/
def quaternionOfAngleAxis [LinearOrderedField T] (sqrt cos sin : T → T) (a : Vec3 T) :
    Fin 4 → T :=
  if a = 0 then ![0, 0, 0, 1]
  else
    let θ := sqrt (a.dot a)
    ![sin (θ / 2) * (a.x / θ), sin (θ / 2) * (a.y / θ), sin (θ / 2) * (a.z / θ), cos (θ / 2)]

/-! ## The functors -/

/-- Stored data of `struct PointToPointErrorGlobal`; the constructor takes
`(dst, src)`. -/
structure PointToPointErrorGlobal (T : Type) where
  p_dst : Vec3 T
  p_src : Vec3 T

/-- Stored data of `struct PointToPlaneErrorGlobal`; the constructor takes
`(dst, src, nor)`. -/
structure PointToPlaneErrorGlobal (T : Type) where
  p_dst : Vec3 T
  p_src : Vec3 T
  p_nor : Vec3 T

/-- Stored data of `struct PointToPointError_EigenQuaternion`; the constructor
takes `(dst, src)`. -/
structure PointToPointError_EigenQuaternion (T : Type) where
  p_dst : Vec3 T
  p_src : Vec3 T

/-- Stored data of `struct PointToPointError_CeresAngleAxis`; the constructor
takes `(dst, src)`. -/
structure PointToPointError_CeresAngleAxis (T : Type) where
  p_dst : Vec3 T
  p_src : Vec3 T

/-- Stored data of `struct PointToPlaneError`; the constructor takes
`(dst, src, nor)`. -/
structure PointToPlaneError (T : Type) where
  p_dst : Vec3 T
  p_src : Vec3 T
  p_nor : Vec3 T

/-- Stored data of `struct PointToPlaneError_EigenQuaternion`; the constructor
takes `(dst, src, nor)`. -/
structure PointToPlaneError_EigenQuaternion (T : Type) where
  p_dst : Vec3 T
  p_src : Vec3 T
  p_nor : Vec3 T

/-- `PointToPointErrorGlobal::operator()` (algorithms.h 55-82). -/
def PointToPointErrorGlobal.operator [CommRing T] (self : PointToPointErrorGlobal T)
    (camera_rotation : Fin 4 → T) (camera_translation : Fin 3 → T)
    (camera_rotation_dst : Fin 4 → T) (camera_translation_dst : Fin 3 → T) :
    Bool × Vec3 T :=
  let src : Vec3 T := ⟨self.p_src.x, self.p_src.y, self.p_src.z⟩
  let dst : Vec3 T := ⟨self.p_dst.x, self.p_dst.y, self.p_dst.z⟩
  let q := mapQuaternion camera_rotation
  let qDst := mapQuaternion camera_rotation_dst
  let t := mapVector3 camera_translation
  let tDst := mapVector3 camera_translation_dst
  let p := q.transformVector src
  let p := p + t
  let p2 := qDst.transformVector dst
  let p2 := p2 + tDst
  (true, ⟨p.x - p2.x, p.y - p2.y, p.z - p2.z⟩)

/-- `PointToPlaneErrorGlobal::operator()` (algorithms.h 102-129). -/
def PointToPlaneErrorGlobal.operator [CommRing T] (self : PointToPlaneErrorGlobal T)
    (camera_rotation : Fin 4 → T) (camera_translation : Fin 3 → T)
    (camera_rotation_dst : Fin 4 → T) (camera_translation_dst : Fin 3 → T) :
    Bool × T :=
  let src : Vec3 T := ⟨self.p_src.x, self.p_src.y, self.p_src.z⟩
  let dst : Vec3 T := ⟨self.p_dst.x, self.p_dst.y, self.p_dst.z⟩
  let nor : Vec3 T := ⟨self.p_nor.x, self.p_nor.y, self.p_nor.z⟩
  let q := mapQuaternion camera_rotation
  let qDst := mapQuaternion camera_rotation_dst
  let t := mapVector3 camera_translation
  let tDst := mapVector3 camera_translation_dst
  let p := q.transformVector src
  let p := p + t
  let p2 := qDst.transformVector dst
  let p2 := p2 + tDst
  let n2 := qDst.transformVector nor
  (true, (p - p2).dot n2)

/-- `PointToPointError_EigenQuaternion::operator()` (algorithms.h 146-170). -/
def PointToPointError_EigenQuaternion.operator [CommRing T]
    (self : PointToPointError_EigenQuaternion T)
    (camera_rotation : Fin 4 → T) (camera_translation : Fin 3 → T) : Bool × Vec3 T :=
  let point : Vec3 T := ⟨self.p_src.x, self.p_src.y, self.p_src.z⟩
  let q := mapQuaternion camera_rotation
  let p := q.transformVector point
  let t := mapVector3 camera_translation
  let p := p + t
  (true, ⟨p.x - self.p_dst.x, p.y - self.p_dst.y, p.z - self.p_dst.z⟩)

/-- `PointToPointError_CeresAngleAxis::operator()` (algorithms.h 191-211).
The library routine `ceres::AngleAxisRotatePoint(angle_axis, pt, result)` is not
part of the sources and is a parameter here; it is handed the start of the
`camera` block, of which it reads the three entries `camera[0..2]`.  The call is
in place (`pt` and `result` are the same array `p`); the routine is taken to
return a function of the rotation vector and of the point it is given. -/
def PointToPointError_CeresAngleAxis.operator [CommRing T]
    (AngleAxisRotatePoint : (Fin 3 → T) → Vec3 T → Vec3 T)
    (self : PointToPointError_CeresAngleAxis T) (camera : Fin 6 → T) : Bool × Vec3 T :=
  let p : Vec3 T := ⟨self.p_src.x, self.p_src.y, self.p_src.z⟩
  let p := AngleAxisRotatePoint ![camera 0, camera 1, camera 2] p
  let p : Vec3 T := ⟨p.x + camera 3, p.y + camera 4, p.z + camera 5⟩
  (true, ⟨p.x - self.p_dst.x, p.y - self.p_dst.y, p.z - self.p_dst.z⟩)

/-- `PointToPlaneError::operator()` (algorithms.h 230-247); the library routine
`ceres::AngleAxisRotatePoint` is a parameter as in
`PointToPointError_CeresAngleAxis.operator`. -/
def PointToPlaneError.operator [CommRing T]
    (AngleAxisRotatePoint : (Fin 3 → T) → Vec3 T → Vec3 T)
    (self : PointToPlaneError T) (camera : Fin 6 → T) : Bool × T :=
  let p : Vec3 T := ⟨self.p_src.x, self.p_src.y, self.p_src.z⟩
  let p := AngleAxisRotatePoint ![camera 0, camera 1, camera 2] p
  let p : Vec3 T := ⟨p.x + camera 3, p.y + camera 4, p.z + camera 5⟩
  (true, (p.x - self.p_dst.x) * self.p_nor.x +
         (p.y - self.p_dst.y) * self.p_nor.y +
         (p.z - self.p_dst.z) * self.p_nor.z)

/-- `PointToPlaneError_EigenQuaternion::operator()` (algorithms.h 267-290). -/
def PointToPlaneError_EigenQuaternion.operator [CommRing T]
    (self : PointToPlaneError_EigenQuaternion T)
    (camera_rotation : Fin 4 → T) (camera_translation : Fin 3 → T) : Bool × T :=
  let point : Vec3 T := ⟨self.p_src.x, self.p_src.y, self.p_src.z⟩
  let q := mapQuaternion camera_rotation
  let p := q.transformVector point
  let t := mapVector3 camera_translation
  let p := p + t
  let point2 : Vec3 T := ⟨self.p_dst.x, self.p_dst.y, self.p_dst.z⟩
  let normal : Vec3 T := ⟨self.p_nor.x, self.p_nor.y, self.p_nor.z⟩
  (true, (p - point2).dot normal)

/-! ## Unfolding and algebra lemmas -/

/-- Entries of a sum. -/
theorem Vec3.add_def [Add T] (a b : Vec3 T) :
    a + b = ⟨a.x + b.x, a.y + b.y, a.z + b.z⟩ := rfl

/-- Entries of a difference. -/
theorem Vec3.sub_def [Sub T] (a b : Vec3 T) :
    a - b = ⟨a.x - b.x, a.y - b.y, a.z - b.z⟩ := rfl

/-- Entries of a negation. -/
theorem Vec3.neg_def [Neg T] (a : Vec3 T) : -a = ⟨-a.x, -a.y, -a.z⟩ := rfl

/-- Entries of a scalar multiple. -/
theorem Vec3.smul_def [Mul T] (c : T) (v : Vec3 T) :
    c • v = ⟨c * v.x, c * v.y, c * v.z⟩ := rfl

/-- Entries of the zero vector. -/
theorem Vec3.zero_def [Zero T] : (0 : Vec3 T) = ⟨0, 0, 0⟩ := rfl

/-- The components of the Eigen product `q * v`, as polynomials in the raw
coefficients. -/
theorem Quat.transformVector_components [CommRing T] (q : Quat T) (v : Vec3 T) :
    q.transformVector v =
      ⟨v.x + q.w * (q.y * v.z - q.z * v.y + (q.y * v.z - q.z * v.y)) +
          (q.y * (q.x * v.y - q.y * v.x + (q.x * v.y - q.y * v.x)) -
            q.z * (q.z * v.x - q.x * v.z + (q.z * v.x - q.x * v.z))),
       v.y + q.w * (q.z * v.x - q.x * v.z + (q.z * v.x - q.x * v.z)) +
          (q.z * (q.y * v.z - q.z * v.y + (q.y * v.z - q.z * v.y)) -
            q.x * (q.x * v.y - q.y * v.x + (q.x * v.y - q.y * v.x))),
       v.z + q.w * (q.x * v.y - q.y * v.x + (q.x * v.y - q.y * v.x)) +
          (q.x * (q.z * v.x - q.x * v.z + (q.z * v.x - q.x * v.z)) -
            q.y * (q.y * v.z - q.z * v.y + (q.y * v.z - q.z * v.y)))⟩ := rfl

/-- Reading a literal 3-block. -/
theorem mapVector3_cons (a b c : T) : mapVector3 ![a, b, c] = ⟨a, b, c⟩ := rfl

/-- Reading a literal 4-block: the fourth entry is `w`. -/
theorem mapQuaternion_cons (a b c d : T) : mapQuaternion ![a, b, c, d] = ⟨a, b, c, d⟩ := rfl

/-- Reading the literal 6-block `a ++ t`. -/
theorem camera_cons (a0 a1 a2 t0 t1 t2 : T) :
    (![a0, a1, a2, t0, t1, t2] : Fin 6 → T) 0 = a0 ∧
    (![a0, a1, a2, t0, t1, t2] : Fin 6 → T) 1 = a1 ∧
    (![a0, a1, a2, t0, t1, t2] : Fin 6 → T) 2 = a2 ∧
    (![a0, a1, a2, t0, t1, t2] : Fin 6 → T) 3 = t0 ∧
    (![a0, a1, a2, t0, t1, t2] : Fin 6 → T) 4 = t1 ∧
    (![a0, a1, a2, t0, t1, t2] : Fin 6 → T) 5 = t2 :=
  ⟨rfl, rfl, rfl, rfl, rfl, rfl⟩

/-- On a unit quaternion the quaternion inverse is the conjugate. -/
theorem hamilton_inv_of_unit [LinearOrderedField T] (q : Quat T) (h : q.squaredNorm = 1) :
    (q.toHamilton)⁻¹ = star q.toHamilton := by
  have hn : Quaternion.normSq q.toHamilton = 1 := by
    rw [Quaternion.normSq_def']
    simp only [Quat.toHamilton]
    rw [← h]
    simp only [Quat.squaredNorm]
    ring
  rw [Quaternion.instInv_inv, hn, inv_one, one_smul]

/-- The product `q·v·q⁻¹` of a pure quaternion is pure, for every `q`. -/
theorem conjugation_re [LinearOrderedField T] (q : Quat T) (v : Vec3 T) :
    (q.toHamilton * v.toPure * (q.toHamilton)⁻¹).re = 0 := by
  simp only [Quaternion.instInv_inv, Quaternion.mul_re, Quaternion.mul_imI, Quaternion.mul_imJ,
    Quaternion.mul_imK, Quaternion.smul_re, Quaternion.smul_imI, Quaternion.smul_imJ,
    Quaternion.smul_imK, Quaternion.star_re, Quaternion.star_imI, Quaternion.star_imJ,
    Quaternion.star_imK, Quat.toHamilton, Vec3.toPure, smul_eq_mul]
  ring

/-- On a unit quaternion the Eigen product `q * v` is the rotation `q·v·q⁻¹`. -/
theorem conjugation_eq_transformVector [LinearOrderedField T] (q : Quat T) (v : Vec3 T)
    (h : q.squaredNorm = 1) : conjugation q v = q.transformVector v := by
  have hu : q.x * q.x + q.y * q.y + q.z * q.z + q.w * q.w = 1 := h
  simp only [conjugation, hamilton_inv_of_unit q h, Quat.transformVector_components]
  ext
  · simp [Quat.toHamilton, Vec3.toPure]
    linear_combination v.x * hu
  · simp [Quat.toHamilton, Vec3.toPure]
    linear_combination v.y * hu
  · simp [Quat.toHamilton, Vec3.toPure]
    linear_combination v.z * hu

/-- The identity quaternion block `x = y = z = 0, w = 1` leaves every vector
fixed. -/
theorem transformVector_identity [CommRing T] (v : Vec3 T) :
    (mapQuaternion (![0, 0, 0, 1] : Fin 4 → T)).transformVector v = v := by
  rw [Quat.transformVector_components]
  ext <;> simp [mapQuaternion]

/-- A residual triple of differences is zero exactly when the two points agree. -/
theorem residual_eq_zero_iff [AddGroup T] (p d : Vec3 T) :
    (⟨p.x - d.x, p.y - d.y, p.z - d.z⟩ : Vec3 T) = 0 ↔ p = d := by
  rw [Vec3.zero_def, Vec3.mk.injEq, sub_eq_zero, sub_eq_zero, sub_eq_zero]
  constructor
  · rintro ⟨h1, h2, h3⟩
    exact Vec3.ext h1 h2 h3
  · rintro rfl
    exact ⟨rfl, rfl, rfl⟩

/-- A dot product of a residual triple that is zero is zero. -/
theorem dot_residual_of_eq [CommRing T] (p d n : Vec3 T) (h : p = d) :
    (p.x - d.x) * n.x + (p.y - d.y) * n.y + (p.z - d.z) * n.z = 0 := by
  subst h
  ring

/-- In an ordered field a vector is zero exactly when its squared length is not
positive. -/
theorem Vec3.eq_zero_iff_not_pos [LinearOrderedField T] (a : Vec3 T) :
    a = 0 ↔ ¬ 0 < a.x * a.x + a.y * a.y + a.z * a.z := by
  constructor
  · intro h
    rw [h, Vec3.zero_def]
    simp
  · intro h
    have hx := mul_self_nonneg a.x
    have hy := mul_self_nonneg a.y
    have hz := mul_self_nonneg a.z
    have h0 : a.x * a.x + a.y * a.y + a.z * a.z = 0 := le_antisymm (not_lt.mp h) (by positivity)
    have h1 : a.x * a.x = 0 := by linarith
    have h2 : a.y * a.y = 0 := by linarith
    have h3 : a.z * a.z = 0 := by linarith
    rw [Vec3.zero_def]
    exact Vec3.ext (mul_self_eq_zero.mp h1) (mul_self_eq_zero.mp h2) (mul_self_eq_zero.mp h3)

/-- The model of the library routine is the Rodrigues rotation of the
specification, for every choice of the scalar functions. -/
theorem AngleAxisRotatePoint_eq_rodrigues [LinearOrderedField T] (sqrt cos sin : T → T)
    (a : Fin 3 → T) (pt : Vec3 T) :
    ceres.AngleAxisRotatePoint sqrt cos sin a pt = rodrigues sqrt cos sin (mapVector3 a) pt := by
  unfold ceres.AngleAxisRotatePoint rodrigues
  by_cases h : 0 < a 0 * a 0 + a 1 * a 1 + a 2 * a 2
  · have hne : ¬ mapVector3 a = 0 := by
      rw [Vec3.eq_zero_iff_not_pos]
      simpa [mapVector3] using h
    rw [if_pos h, if_neg hne]
    ext <;>
      simp only [mapVector3, Vec3.dot, Vec3.cross, Vec3.add_def, Vec3.smul_def] <;> ring
  · have he : mapVector3 a = 0 := by
      rw [Vec3.eq_zero_iff_not_pos]
      simpa [mapVector3] using h
    rw [if_neg h, if_pos he]

/-- The algebra behind the half-angle quaternion: with a unit axis `k`,
`s² + c² = 1`, `S = 2sc` and `C = 2c² − 1`, the Eigen product with the
coefficients `(s·k, c)` is the Rodrigues expression with `cos θ = C`,
`sin θ = S`. -/
theorem transformVector_half_angle [CommRing T] (s c S C : T) (k v : Vec3 T)
    (hk : k.x * k.x + k.y * k.y + k.z * k.z = 1) (hsc : s ^ 2 + c ^ 2 = 1)
    (hs : S = 2 * s * c) (hc : C = 2 * c ^ 2 - 1) :
    (mapQuaternion ![s * k.x, s * k.y, s * k.z, c]).transformVector v =
      C • v + S • k.cross v + (k.dot v * (1 - C)) • k := by
  rw [Quat.transformVector_components]
  simp only [mapQuaternion_cons, Vec3.dot, Vec3.cross, Vec3.add_def, Vec3.smul_def]
  ext
  · simp only
    linear_combination (-2 * s ^ 2 * v.x) * hk - (k.y * v.z - k.z * v.y) * hs +
      (k.x * (k.x * v.x + k.y * v.y + k.z * v.z) - v.x) * hc +
      2 * (k.x * (k.x * v.x + k.y * v.y + k.z * v.z) - v.x) * hsc
  · simp only
    linear_combination (-2 * s ^ 2 * v.y) * hk - (k.z * v.x - k.x * v.z) * hs +
      (k.y * (k.x * v.x + k.y * v.y + k.z * v.z) - v.y) * hc +
      2 * (k.y * (k.x * v.x + k.y * v.y + k.z * v.z) - v.y) * hsc
  · simp only
    linear_combination (-2 * s ^ 2 * v.z) * hk - (k.x * v.y - k.y * v.x) * hs +
      (k.z * (k.x * v.x + k.y * v.y + k.z * v.z) - v.z) * hc +
      2 * (k.z * (k.x * v.x + k.y * v.y + k.z * v.z) - v.z) * hsc

/-- The axis `a/‖a‖` of a non-zero real vector has unit length. -/
theorem unit_axis (a : Vec3 ℝ) (h : a ≠ 0) :
    a.x / Real.sqrt (a.dot a) * (a.x / Real.sqrt (a.dot a)) +
      a.y / Real.sqrt (a.dot a) * (a.y / Real.sqrt (a.dot a)) +
      a.z / Real.sqrt (a.dot a) * (a.z / Real.sqrt (a.dot a)) = 1 := by
  have hpos : 0 < a.dot a := by
    by_contra hn
    exact h ((Vec3.eq_zero_iff_not_pos a).mpr hn)
  have hθ : 0 < Real.sqrt (a.dot a) := Real.sqrt_pos.mpr hpos
  have hd : a.dot a = a.x * a.x + a.y * a.y + a.z * a.z := rfl
  field_simp
  exact hd.symm

/-- The quaternion block of a rotation vector is a unit quaternion. -/
theorem quaternionOfAngleAxis_unit (a : Vec3 ℝ) :
    (mapQuaternion (quaternionOfAngleAxis Real.sqrt Real.cos Real.sin a)).squaredNorm = 1 := by
  unfold quaternionOfAngleAxis
  by_cases h : a = 0
  · rw [if_pos h, mapQuaternion_cons]
    simp [Quat.squaredNorm]
  · rw [if_neg h]
    have hk := unit_axis a h
    have hsc := Real.sin_sq_add_cos_sq (Real.sqrt (a.dot a) / 2)
    simp only [mapQuaternion_cons, Quat.squaredNorm]
    linear_combination (Real.sin (Real.sqrt (a.dot a) / 2)) ^ 2 * hk + hsc

/-- On the quaternion block of a rotation vector the Eigen product is the
Rodrigues rotation of that vector. -/
theorem transformVector_quaternionOfAngleAxis (a v : Vec3 ℝ) :
    (mapQuaternion (quaternionOfAngleAxis Real.sqrt Real.cos Real.sin a)).transformVector v =
      rodrigues Real.sqrt Real.cos Real.sin a v := by
  unfold quaternionOfAngleAxis rodrigues
  by_cases h : a = 0
  · rw [if_pos h, if_pos h, transformVector_identity]
  · rw [if_neg h, if_neg h]
    have hsc := Real.sin_sq_add_cos_sq (Real.sqrt (a.dot a) / 2)
    have hs : Real.sin (Real.sqrt (a.dot a)) =
        2 * Real.sin (Real.sqrt (a.dot a) / 2) * Real.cos (Real.sqrt (a.dot a) / 2) := by
      rw [← Real.sin_two_mul]
      congr 1
      ring
    have hc : Real.cos (Real.sqrt (a.dot a)) =
        2 * Real.cos (Real.sqrt (a.dot a) / 2) ^ 2 - 1 := by
      rw [← Real.cos_two_mul]
      congr 1
      ring
    exact transformVector_half_angle _ _ _ _
      ⟨a.x / Real.sqrt (a.dot a), a.y / Real.sqrt (a.dot a), a.z / Real.sqrt (a.dot a)⟩ v
      (unit_axis a h) hsc hs hc

/-- The quaternion residual on the quaternion block of a rotation vector and the
axis-angle residual on that rotation vector are the same vector. -/
theorem EigenQuaternion_eq_CeresAngleAxis (a : Vec3 ℝ) (t : Fin 3 → ℝ) (dst src : Vec3 ℝ) :
    (PointToPointError_EigenQuaternion.operator ⟨dst, src⟩
        (quaternionOfAngleAxis Real.sqrt Real.cos Real.sin a) t).2 =
      (PointToPointError_CeresAngleAxis.operator
        (ceres.AngleAxisRotatePoint Real.sqrt Real.cos Real.sin) ⟨dst, src⟩
        ![a.x, a.y, a.z, t 0, t 1, t 2]).2 := by
  obtain ⟨h0, h1, h2, h3, h4, h5⟩ := camera_cons a.x a.y a.z (t 0) (t 1) (t 2)
  simp only [PointToPointError_EigenQuaternion.operator,
    PointToPointError_CeresAngleAxis.operator, AngleAxisRotatePoint_eq_rodrigues,
    transformVector_quaternionOfAngleAxis, mapVector3_cons, h0, h1, h2, h3, h4, h5]
  rfl

/-! ## The claims -/

/-- C1. For unit quaternion blocks `q_src`, `q_dst` the residual of
`PointToPlaneErrorGlobal` is
`dot(R(q_src)·src + t_src − (R(q_dst)·dst + t_dst), R(q_dst)·normal)` with
`R(q) v = q·v·q⁻¹`: the normal is rotated by the destination rotation only, and
the vector projected onto is `R(q_dst)·normal`, free of `t_dst` and of the
source pose. -/
theorem PointToPlaneErrorGlobal_residual (T : Type) [LinearOrderedField T]
    (dst src nor : Vec3 T) (q_src : Fin 4 → T) (t_src : Fin 3 → T)
    (q_dst : Fin 4 → T) (t_dst : Fin 3 → T)
    (h_src : (mapQuaternion q_src).squaredNorm = 1)
    (h_dst : (mapQuaternion q_dst).squaredNorm = 1) :
    (PointToPlaneErrorGlobal.operator ⟨dst, src, nor⟩ q_src t_src q_dst t_dst).2 =
      Vec3.dot
        (conjugation (mapQuaternion q_src) src + mapVector3 t_src -
          (conjugation (mapQuaternion q_dst) dst + mapVector3 t_dst))
        (conjugation (mapQuaternion q_dst) nor) := by
  rw [conjugation_eq_transformVector _ _ h_src, conjugation_eq_transformVector _ _ h_dst,
    conjugation_eq_transformVector _ _ h_dst]
  rfl

/-- Witness of C1 on `ℚ`: unit blocks `(3/5, 0, 0, 4/5)` and `(0, 4/5, 0, 3/5)`;
code and formula both give `542/625`. -/
theorem PointToPlaneErrorGlobal_residual_witness :
    (mapQuaternion (![3/5, 0, 0, 4/5] : Fin 4 → ℚ)).squaredNorm = 1 ∧
    (mapQuaternion (![0, 4/5, 0, 3/5] : Fin 4 → ℚ)).squaredNorm = 1 ∧
    Vec3.dot
        (conjugation (mapQuaternion ![3/5, 0, 0, 4/5]) ⟨1, 2, 3⟩ + mapVector3 ![1, 0, 2] -
          (conjugation (mapQuaternion ![0, 4/5, 0, 3/5]) ⟨0, 1, 0⟩ + mapVector3 ![0, 1, 1]))
        (conjugation (mapQuaternion ![0, 4/5, 0, 3/5]) ⟨0, 0, 1⟩) = (542 / 625 : ℚ) :=
  ⟨by norm_num [mapQuaternion, Quat.squaredNorm],
   by norm_num [mapQuaternion, Quat.squaredNorm],
   (PointToPlaneErrorGlobal_residual ℚ ⟨0, 1, 0⟩ ⟨1, 2, 3⟩ ⟨0, 0, 1⟩
      ![3/5, 0, 0, 4/5] ![1, 0, 2] ![0, 4/5, 0, 3/5] ![0, 1, 1]
      (by norm_num [mapQuaternion, Quat.squaredNorm])
      (by norm_num [mapQuaternion, Quat.squaredNorm])).symm.trans
    (by
      simp only [PointToPlaneErrorGlobal.operator, Quat.transformVector_components,
        mapQuaternion, mapVector3, Vec3.add_def, Vec3.sub_def, Vec3.dot]
      norm_num)⟩

/-- C2. For a unit quaternion block `q` the three residuals of
`PointToPointError_EigenQuaternion(dst, src)` are the components of
`R(q)·src + t − dst`, `R(q) v = q·v·q⁻¹`; the first constructor argument is the
destination point, the second the source point. -/
theorem PointToPointError_EigenQuaternion_residual (T : Type) [LinearOrderedField T]
    (dst src : Vec3 T) (q : Fin 4 → T) (t : Fin 3 → T)
    (h : (mapQuaternion q).squaredNorm = 1) :
    (PointToPointError_EigenQuaternion.operator ⟨dst, src⟩ q t).2 =
      conjugation (mapQuaternion q) src + mapVector3 t - dst := by
  rw [conjugation_eq_transformVector _ _ h]
  rfl

/-- Witness of C2 on `ℚ`: the unit block `(3/5, 0, 0, 4/5)`. -/
theorem PointToPointError_EigenQuaternion_residual_witness :
    (mapQuaternion (![3/5, 0, 0, 4/5] : Fin 4 → ℚ)).squaredNorm = 1 ∧
    conjugation (mapQuaternion ![3/5, 0, 0, 4/5]) ⟨1, 2, 3⟩ + mapVector3 ![1, 0, 2] - ⟨0, 1, 0⟩ =
      (⟨2, -83 / 25, 119 / 25⟩ : Vec3 ℚ) :=
  ⟨by norm_num [mapQuaternion, Quat.squaredNorm],
   (PointToPointError_EigenQuaternion_residual ℚ ⟨0, 1, 0⟩ ⟨1, 2, 3⟩ ![3/5, 0, 0, 4/5] ![1, 0, 2]
      (by norm_num [mapQuaternion, Quat.squaredNorm])).symm.trans
    (by
      simp only [PointToPointError_EigenQuaternion.operator, Quat.transformVector_components,
        mapQuaternion, mapVector3, Vec3.add_def]
      norm_num)⟩

/-- C3. For unit quaternion blocks the three residuals of
`PointToPointErrorGlobal(dst, src)` are the components of
`(R(q_src)·src + t_src) − (R(q_dst)·dst + t_dst)`; the first two parameter blocks
are the source pose, the last two the destination pose. -/
theorem PointToPointErrorGlobal_residual (T : Type) [LinearOrderedField T]
    (dst src : Vec3 T) (q_src : Fin 4 → T) (t_src : Fin 3 → T)
    (q_dst : Fin 4 → T) (t_dst : Fin 3 → T)
    (h_src : (mapQuaternion q_src).squaredNorm = 1)
    (h_dst : (mapQuaternion q_dst).squaredNorm = 1) :
    (PointToPointErrorGlobal.operator ⟨dst, src⟩ q_src t_src q_dst t_dst).2 =
      (conjugation (mapQuaternion q_src) src + mapVector3 t_src) -
        (conjugation (mapQuaternion q_dst) dst + mapVector3 t_dst) := by
  rw [conjugation_eq_transformVector _ _ h_src, conjugation_eq_transformVector _ _ h_dst]
  rfl

/-- Witness of C3 on `ℚ`: unit blocks `(3/5, 0, 0, 4/5)` and `(0, 4/5, 0, 3/5)`. -/
theorem PointToPointErrorGlobal_residual_witness :
    (mapQuaternion (![3/5, 0, 0, 4/5] : Fin 4 → ℚ)).squaredNorm = 1 ∧
    (mapQuaternion (![0, 4/5, 0, 3/5] : Fin 4 → ℚ)).squaredNorm = 1 ∧
    (conjugation (mapQuaternion ![3/5, 0, 0, 4/5]) ⟨1, 2, 3⟩ + mapVector3 ![1, 0, 2]) -
        (conjugation (mapQuaternion ![0, 4/5, 0, 3/5]) ⟨0, 1, 0⟩ + mapVector3 ![0, 1, 1]) =
      (⟨2, -108 / 25, 94 / 25⟩ : Vec3 ℚ) :=
  ⟨by norm_num [mapQuaternion, Quat.squaredNorm],
   by norm_num [mapQuaternion, Quat.squaredNorm],
   (PointToPointErrorGlobal_residual ℚ ⟨0, 1, 0⟩ ⟨1, 2, 3⟩
      ![3/5, 0, 0, 4/5] ![1, 0, 2] ![0, 4/5, 0, 3/5] ![0, 1, 1]
      (by norm_num [mapQuaternion, Quat.squaredNorm])
      (by norm_num [mapQuaternion, Quat.squaredNorm])).symm.trans
    (by
      simp only [PointToPointErrorGlobal.operator, Quat.transformVector_components,
        mapQuaternion, mapVector3, Vec3.add_def]
      norm_num)⟩

/-- C4. In both encodings the fixed-destination point-to-plane residual is the
dot product of the fixed-destination point-to-point residual with the stored
normal, for every pose block, every `src`, `dst`, `nor` (and whatever rotation
the axis-angle library routine applies). -/
theorem PointToPlane_eq_dot_PointToPoint (T : Type) [CommRing T]
    (rotatePoint : (Fin 3 → T) → Vec3 T → Vec3 T)
    (dst src nor : Vec3 T) (q : Fin 4 → T) (t : Fin 3 → T) (camera : Fin 6 → T) :
    (PointToPlaneError_EigenQuaternion.operator ⟨dst, src, nor⟩ q t).2 =
        Vec3.dot (PointToPointError_EigenQuaternion.operator ⟨dst, src⟩ q t).2 nor ∧
    (PointToPlaneError.operator rotatePoint ⟨dst, src, nor⟩ camera).2 =
        Vec3.dot (PointToPointError_CeresAngleAxis.operator rotatePoint
          ⟨dst, src⟩ camera).2 nor :=
  ⟨rfl, rfl⟩

/-- C5. `PointToPointError_CeresAngleAxis` reads its 6-real block as
`camera[0..2]` = rotation vector `a` and `camera[3..5]` = translation `t`, and
its residual is `Rod(a)·src + t − dst`, where `Rod(a)` is the Rodrigues rotation
`v ↦ v·cos θ + (k × v)·sin θ + k·(k·v)·(1 − cos θ)`, `θ = ‖a‖`, `k = a/θ`, and
the identity when `a = 0` (for the scalar functions of any ordered field, in
particular the real `√`, `cos`, `sin`). -/
theorem PointToPointError_CeresAngleAxis_residual (T : Type) [LinearOrderedField T]
    (sqrt cos sin : T → T) (dst src : Vec3 T) (camera : Fin 6 → T) :
    (PointToPointError_CeresAngleAxis.operator (ceres.AngleAxisRotatePoint sqrt cos sin)
        ⟨dst, src⟩ camera).2 =
      rodrigues sqrt cos sin ⟨camera 0, camera 1, camera 2⟩ src +
        ⟨camera 3, camera 4, camera 5⟩ - dst := by
  simp only [PointToPointError_CeresAngleAxis.operator, AngleAxisRotatePoint_eq_rodrigues,
    mapVector3_cons]
  rfl

/-- C6. For every real rotation vector `a`, the unit quaternion block
`(sin(θ/2)·a/θ, cos(θ/2))`, `θ = ‖a‖` (the identity block when `a = 0`), every
translation `t` and every stored pair `(dst, src)`: each component of the
`PointToPointError_EigenQuaternion` residual at `(q, t)` differs from the same
component of the `PointToPointError_CeresAngleAxis` residual at `a ++ t` by at
most `1e-6`. -/
theorem EigenQuaternion_CeresAngleAxis_agree (a : Vec3 ℝ) (t : Fin 3 → ℝ) (dst src : Vec3 ℝ) :
    (mapQuaternion (quaternionOfAngleAxis Real.sqrt Real.cos Real.sin a)).squaredNorm = 1 ∧
    |(PointToPointError_EigenQuaternion.operator ⟨dst, src⟩
        (quaternionOfAngleAxis Real.sqrt Real.cos Real.sin a) t).2.x -
      (PointToPointError_CeresAngleAxis.operator
        (ceres.AngleAxisRotatePoint Real.sqrt Real.cos Real.sin) ⟨dst, src⟩
        ![a.x, a.y, a.z, t 0, t 1, t 2]).2.x| ≤ 1 / 1000000 ∧
    |(PointToPointError_EigenQuaternion.operator ⟨dst, src⟩
        (quaternionOfAngleAxis Real.sqrt Real.cos Real.sin a) t).2.y -
      (PointToPointError_CeresAngleAxis.operator
        (ceres.AngleAxisRotatePoint Real.sqrt Real.cos Real.sin) ⟨dst, src⟩
        ![a.x, a.y, a.z, t 0, t 1, t 2]).2.y| ≤ 1 / 1000000 ∧
    |(PointToPointError_EigenQuaternion.operator ⟨dst, src⟩
        (quaternionOfAngleAxis Real.sqrt Real.cos Real.sin a) t).2.z -
      (PointToPointError_CeresAngleAxis.operator
        (ceres.AngleAxisRotatePoint Real.sqrt Real.cos Real.sin) ⟨dst, src⟩
        ![a.x, a.y, a.z, t 0, t 1, t 2]).2.z| ≤ 1 / 1000000 := by
  rw [EigenQuaternion_eq_CeresAngleAxis]
  refine ⟨quaternionOfAngleAxis_unit a, ?_, ?_, ?_⟩ <;>
    · rw [sub_self, abs_zero]
      norm_num

/-- C7. With the identity quaternion block and the zero translation as
destination pose, the global residuals are exactly the fixed-destination
quaternion residuals, for every source pose block and every stored data. -/
theorem Global_identity_dst_eq_fixed (T : Type) [CommRing T]
    (dst src nor : Vec3 T) (q : Fin 4 → T) (t : Fin 3 → T) :
    (PointToPointErrorGlobal.operator ⟨dst, src⟩ q t ![0, 0, 0, 1] ![0, 0, 0]).2 =
        (PointToPointError_EigenQuaternion.operator ⟨dst, src⟩ q t).2 ∧
    (PointToPlaneErrorGlobal.operator ⟨dst, src, nor⟩ q t ![0, 0, 0, 1] ![0, 0, 0]).2 =
        (PointToPlaneError_EigenQuaternion.operator ⟨dst, src, nor⟩ q t).2 := by
  constructor
  · simp only [PointToPointErrorGlobal.operator, PointToPointError_EigenQuaternion.operator,
      transformVector_identity]
    ext <;> simp [mapVector3_cons, Vec3.add_def]
  · simp only [PointToPlaneErrorGlobal.operator, PointToPlaneError_EigenQuaternion.operator,
      transformVector_identity, mapVector3_cons, Vec3.add_def, Vec3.sub_def, Vec3.dot, add_zero]

/-- C8. With the identity quaternion block as destination rotation and any
destination translation `t_dst`, the global point-to-plane residual equals the
fixed point-to-plane residual against the translated point `dst + t_dst` with
the stored normal unchanged. -/
theorem PointToPlaneErrorGlobal_identity_rotation (T : Type) [CommRing T]
    (dst src nor : Vec3 T) (q : Fin 4 → T) (t t_dst : Fin 3 → T) :
    (PointToPlaneErrorGlobal.operator ⟨dst, src, nor⟩ q t ![0, 0, 0, 1] t_dst).2 =
      (PointToPlaneError_EigenQuaternion.operator
        ⟨dst + mapVector3 t_dst, src, nor⟩ q t).2 := by
  simp only [PointToPlaneErrorGlobal.operator, PointToPlaneError_EigenQuaternion.operator,
    transformVector_identity]

/-- C9. The fixed-destination point-to-point residual is the zero vector exactly
when the pose maps `src` onto `dst`: for a unit quaternion block,
`residual = 0 ↔ R(q)·src + t = dst`; for the axis-angle block,
`residual = 0 ↔ Rot(camera[0..2])·src + camera[3..5] = dst` with the rotation the
library routine applies, in particular with the Rodrigues rotation.  Scenario: `src = (1,0,0)`, `dst = (0,1,0)`, identity
rotation, translation `(−1,1,0)` gives the residual `(0,0,0)` in both
encodings. -/
theorem PointToPoint_zero_iff (T : Type) [LinearOrderedField T]
    (rotatePoint : (Fin 3 → T) → Vec3 T → Vec3 T) (sqrt cos sin : T → T)
    (dst src : Vec3 T) (q : Fin 4 → T) (t : Fin 3 → T) (camera : Fin 6 → T)
    (h : (mapQuaternion q).squaredNorm = 1) :
    ((PointToPointError_EigenQuaternion.operator ⟨dst, src⟩ q t).2 = 0 ↔
        conjugation (mapQuaternion q) src + mapVector3 t = dst) ∧
    ((PointToPointError_CeresAngleAxis.operator rotatePoint ⟨dst, src⟩ camera).2 = 0 ↔
        rotatePoint ![camera 0, camera 1, camera 2] src +
          ⟨camera 3, camera 4, camera 5⟩ = dst) ∧
    ((PointToPointError_CeresAngleAxis.operator (ceres.AngleAxisRotatePoint sqrt cos sin)
        ⟨dst, src⟩ camera).2 = 0 ↔
        rodrigues sqrt cos sin ⟨camera 0, camera 1, camera 2⟩ src +
          ⟨camera 3, camera 4, camera 5⟩ = dst) ∧
    (PointToPointError_EigenQuaternion.operator (⟨⟨0, 1, 0⟩, ⟨1, 0, 0⟩⟩ :
        PointToPointError_EigenQuaternion T) ![0, 0, 0, 1] ![-1, 1, 0]).2 = ⟨0, 0, 0⟩ ∧
    (PointToPointError_CeresAngleAxis.operator (ceres.AngleAxisRotatePoint sqrt cos sin)
        (⟨⟨0, 1, 0⟩, ⟨1, 0, 0⟩⟩ : PointToPointError_CeresAngleAxis T)
        ![0, 0, 0, -1, 1, 0]).2 = ⟨0, 0, 0⟩ := by
  have hr : rodrigues sqrt cos sin ⟨camera 0, camera 1, camera 2⟩ src =
      ceres.AngleAxisRotatePoint sqrt cos sin ![camera 0, camera 1, camera 2] src :=
    (AngleAxisRotatePoint_eq_rodrigues sqrt cos sin ![camera 0, camera 1, camera 2] src).symm
  refine ⟨?_, ?_, ?_, ?_, ?_⟩
  · rw [conjugation_eq_transformVector _ _ h]
    exact residual_eq_zero_iff _ _
  · exact residual_eq_zero_iff _ _
  · rw [hr]
    exact residual_eq_zero_iff _ _
  · simp only [PointToPointError_EigenQuaternion.operator, transformVector_identity]
    ext <;> simp [mapVector3_cons, Vec3.add_def]
  · have h3 : (![0, 0, 0, -1, 1, 0] : Fin 6 → T) 3 = -1 := rfl
    have h4 : (![0, 0, 0, -1, 1, 0] : Fin 6 → T) 4 = 1 := rfl
    have h5 : (![0, 0, 0, -1, 1, 0] : Fin 6 → T) 5 = 0 := rfl
    simp [PointToPointError_CeresAngleAxis.operator, ceres.AngleAxisRotatePoint, h3, h4, h5]

/-- Witness of C9 on `ℚ`: the unit block `(3/5, 0, 0, 4/5)` with translation
`(1, 0, 2)` maps `src = (1, 2, 3)` onto `dst = (2, −58/25, 119/25)`, where the
code returns the zero residual. -/
theorem PointToPoint_zero_iff_witness :
    (mapQuaternion (![3/5, 0, 0, 4/5] : Fin 4 → ℚ)).squaredNorm = 1 ∧
    conjugation (mapQuaternion ![3/5, 0, 0, 4/5]) ⟨1, 2, 3⟩ + mapVector3 ![1, 0, 2] =
      (⟨2, -58 / 25, 119 / 25⟩ : Vec3 ℚ) :=
  ⟨by norm_num [mapQuaternion, Quat.squaredNorm],
   (PointToPoint_zero_iff ℚ (fun _ v => v) id id id ⟨2, -58 / 25, 119 / 25⟩ ⟨1, 2, 3⟩
      ![3/5, 0, 0, 4/5] ![1, 0, 2] ![0, 0, 0, 0, 0, 0]
      (by norm_num [mapQuaternion, Quat.squaredNorm])).1.mp
    (by
      simp only [PointToPointError_EigenQuaternion.operator, Quat.transformVector_components,
        mapQuaternion, mapVector3, Vec3.add_def, Vec3.zero_def]
      norm_num)⟩

/-- C10. At a perfect correspondence and the true pose every residual vanishes.
Fixed destination: if `dst` is the image `R·src + t` of `src` under the pose
(`R = q·v·q⁻¹` for a unit quaternion block; for the axis-angle block the rotation
the library routine applies, and in particular the Rodrigues rotation), the
point-to-point residual is the zero vector and the point-to-plane residual is
`0` for every normal.  Global: if `R(q_src)·src + t_src = R(q_dst)·dst + t_dst`
for unit quaternion blocks, `PointToPointErrorGlobal` is the zero vector and
`PointToPlaneErrorGlobal` is `0` for every normal. -/
theorem residuals_vanish_at_true_pose (T : Type) [LinearOrderedField T]
    (rotatePoint : (Fin 3 → T) → Vec3 T → Vec3 T) (sqrt cos sin : T → T)
    (dst src nor : Vec3 T) (q : Fin 4 → T) (t : Fin 3 → T) (camera : Fin 6 → T)
    (q_src : Fin 4 → T) (t_src : Fin 3 → T) (q_dst : Fin 4 → T) (t_dst : Fin 3 → T)
    (h : (mapQuaternion q).squaredNorm = 1)
    (h_src : (mapQuaternion q_src).squaredNorm = 1)
    (h_dst : (mapQuaternion q_dst).squaredNorm = 1)
    (h_match : conjugation (mapQuaternion q_src) src + mapVector3 t_src =
      conjugation (mapQuaternion q_dst) dst + mapVector3 t_dst) :
    (PointToPointError_EigenQuaternion.operator
        ⟨conjugation (mapQuaternion q) src + mapVector3 t, src⟩ q t).2 = 0 ∧
    (PointToPlaneError_EigenQuaternion.operator
        ⟨conjugation (mapQuaternion q) src + mapVector3 t, src, nor⟩ q t).2 = 0 ∧
    (PointToPointError_CeresAngleAxis.operator rotatePoint
        ⟨rotatePoint ![camera 0, camera 1, camera 2] src + ⟨camera 3, camera 4, camera 5⟩, src⟩
        camera).2 = 0 ∧
    (PointToPlaneError.operator rotatePoint
        ⟨rotatePoint ![camera 0, camera 1, camera 2] src + ⟨camera 3, camera 4, camera 5⟩,
          src, nor⟩ camera).2 = 0 ∧
    (PointToPointError_CeresAngleAxis.operator (ceres.AngleAxisRotatePoint sqrt cos sin)
        ⟨rodrigues sqrt cos sin ⟨camera 0, camera 1, camera 2⟩ src +
          ⟨camera 3, camera 4, camera 5⟩, src⟩ camera).2 = 0 ∧
    (PointToPlaneError.operator (ceres.AngleAxisRotatePoint sqrt cos sin)
        ⟨rodrigues sqrt cos sin ⟨camera 0, camera 1, camera 2⟩ src +
          ⟨camera 3, camera 4, camera 5⟩, src, nor⟩ camera).2 = 0 ∧
    (PointToPointErrorGlobal.operator ⟨dst, src⟩ q_src t_src q_dst t_dst).2 = 0 ∧
    (PointToPlaneErrorGlobal.operator ⟨dst, src, nor⟩ q_src t_src q_dst t_dst).2 = 0 := by
  rw [conjugation_eq_transformVector _ _ h_src, conjugation_eq_transformVector _ _ h_dst]
    at h_match
  have hr : rodrigues sqrt cos sin ⟨camera 0, camera 1, camera 2⟩ src =
      ceres.AngleAxisRotatePoint sqrt cos sin ![camera 0, camera 1, camera 2] src :=
    (AngleAxisRotatePoint_eq_rodrigues sqrt cos sin ![camera 0, camera 1, camera 2] src).symm
  rw [conjugation_eq_transformVector _ _ h, hr]
  refine ⟨?_, ?_, ?_, ?_, ?_, ?_, ?_, ?_⟩
  · exact (residual_eq_zero_iff _ _).mpr rfl
  · exact dot_residual_of_eq _ _ _ rfl
  · exact (residual_eq_zero_iff _ _).mpr rfl
  · exact dot_residual_of_eq _ _ _ rfl
  · exact (residual_eq_zero_iff _ _).mpr rfl
  · exact dot_residual_of_eq _ _ _ rfl
  · exact (residual_eq_zero_iff _ _).mpr h_match
  · have h0 : (PointToPlaneErrorGlobal.operator ⟨dst, src, nor⟩ q_src t_src q_dst t_dst).2 =
        Vec3.dot ((mapQuaternion q_src).transformVector src + mapVector3 t_src -
          ((mapQuaternion q_dst).transformVector dst + mapVector3 t_dst))
          ((mapQuaternion q_dst).transformVector nor) := rfl
    rw [h0, h_match]
    simp [Vec3.sub_def, Vec3.dot]

/-- Witness of C10 on `ℚ`: source pose `((3/5, 0, 0, 4/5), (1, 0, 2))` and
destination pose `((0, 4/5, 0, 3/5), (2, −83/25, 119/25))` send `src = (1, 2, 3)`
and `dst = (0, 1, 0)` to the same point; both global residuals vanish. -/
theorem residuals_vanish_at_true_pose_witness :
    (mapQuaternion (![3/5, 0, 0, 4/5] : Fin 4 → ℚ)).squaredNorm = 1 ∧
    (mapQuaternion (![0, 4/5, 0, 3/5] : Fin 4 → ℚ)).squaredNorm = 1 ∧
    conjugation (mapQuaternion ![3/5, 0, 0, 4/5]) (⟨1, 2, 3⟩ : Vec3 ℚ) + mapVector3 ![1, 0, 2] =
      conjugation (mapQuaternion ![0, 4/5, 0, 3/5]) ⟨0, 1, 0⟩ +
        mapVector3 ![2, -83 / 25, 119 / 25] ∧
    (PointToPointErrorGlobal.operator (⟨⟨0, 1, 0⟩, ⟨1, 2, 3⟩⟩ : PointToPointErrorGlobal ℚ)
        ![3/5, 0, 0, 4/5] ![1, 0, 2] ![0, 4/5, 0, 3/5] ![2, -83 / 25, 119 / 25]).2 = 0 ∧
    (PointToPlaneErrorGlobal.operator (⟨⟨0, 1, 0⟩, ⟨1, 2, 3⟩, ⟨2, 0, 1⟩⟩ : PointToPlaneErrorGlobal ℚ)
        ![3/5, 0, 0, 4/5] ![1, 0, 2] ![0, 4/5, 0, 3/5] ![2, -83 / 25, 119 / 25]).2 = 0 :=
  have hq : (mapQuaternion (![3/5, 0, 0, 4/5] : Fin 4 → ℚ)).squaredNorm = 1 := by
    norm_num [mapQuaternion, Quat.squaredNorm]
  have hd : (mapQuaternion (![0, 4/5, 0, 3/5] : Fin 4 → ℚ)).squaredNorm = 1 := by
    norm_num [mapQuaternion, Quat.squaredNorm]
  have hm : conjugation (mapQuaternion ![3/5, 0, 0, 4/5]) (⟨1, 2, 3⟩ : Vec3 ℚ) +
        mapVector3 ![1, 0, 2] =
      conjugation (mapQuaternion ![0, 4/5, 0, 3/5]) ⟨0, 1, 0⟩ +
        mapVector3 ![2, -83 / 25, 119 / 25] := by
    rw [conjugation_eq_transformVector _ _ hq, conjugation_eq_transformVector _ _ hd]
    simp only [Quat.transformVector_components, mapQuaternion, mapVector3, Vec3.add_def]
    norm_num
  ⟨hq, hd, hm,
    (residuals_vanish_at_true_pose ℚ (fun _ v => v) id id id ⟨0, 1, 0⟩ ⟨1, 2, 3⟩ ⟨2, 0, 1⟩
      ![3/5, 0, 0, 4/5] ![1, 0, 2] ![0, 0, 0, 0, 0, 0]
      ![3/5, 0, 0, 4/5] ![1, 0, 2] ![0, 4/5, 0, 3/5] ![2, -83 / 25, 119 / 25]
      hq hq hd hm).2.2.2.2.2.2⟩

/-! ## Further algebra of the Eigen product -/

/-- The square of `√2/2` is `1/2`. -/
theorem half_sqrt_two_sq : Real.sqrt 2 / 2 * (Real.sqrt 2 / 2) = 1 / 2 := by
  have h : Real.sqrt 2 * Real.sqrt 2 = 2 := Real.mul_self_sqrt (by norm_num)
  linear_combination (1 / 4 : ℝ) * h

/-- The Eigen product is additive in the vector. -/
theorem Quat.transformVector_add [CommRing T] (q : Quat T) (a b : Vec3 T) :
    q.transformVector (a + b) = q.transformVector a + q.transformVector b := by
  simp only [Quat.transformVector_components, Vec3.add_def]
  ext <;> simp only <;> ring

/-- The Eigen product commutes with scaling the vector. -/
theorem Quat.transformVector_smul [CommRing T] (q : Quat T) (c : T) (v : Vec3 T) :
    q.transformVector (c • v) = c • q.transformVector v := by
  simp only [Quat.transformVector_components, Vec3.smul_def]
  ext <;> simp only <;> ring

/-- The Eigen product commutes with negating the vector. -/
theorem Quat.transformVector_neg [CommRing T] (q : Quat T) (v : Vec3 T) :
    q.transformVector (-v) = -q.transformVector v := by
  simp only [Quat.transformVector_components, Vec3.neg_def]
  ext <;> simp only <;> ring

/-- The dot product is homogeneous in its second argument. -/
theorem Vec3.dot_smul [CommRing T] (c : T) (a b : Vec3 T) :
    a.dot (c • b) = c * a.dot b := by
  simp only [Vec3.dot, Vec3.smul_def]
  ring

/-- The dot product is odd in its second argument. -/
theorem Vec3.dot_neg [CommRing T] (a b : Vec3 T) : a.dot (-b) = -a.dot b := by
  simp only [Vec3.dot, Vec3.neg_def]
  ring

/-- Point-to-plane residuals are homogeneous of degree one in the stored
normal, for every scalar `c`. -/
theorem PointToPlane_smul_normal [CommRing T]
    (rotatePoint : (Fin 3 → T) → Vec3 T → Vec3 T) (c : T)
    (dst src n : Vec3 T) (q : Fin 4 → T) (t : Fin 3 → T) (q_dst : Fin 4 → T) (t_dst : Fin 3 → T)
    (camera : Fin 6 → T) :
    (PointToPlaneError.operator rotatePoint ⟨dst, src, c • n⟩ camera).2 =
        c * (PointToPlaneError.operator rotatePoint ⟨dst, src, n⟩ camera).2 ∧
    (PointToPlaneError_EigenQuaternion.operator ⟨dst, src, c • n⟩ q t).2 =
        c * (PointToPlaneError_EigenQuaternion.operator ⟨dst, src, n⟩ q t).2 ∧
    (PointToPlaneErrorGlobal.operator ⟨dst, src, c • n⟩ q t q_dst t_dst).2 =
        c * (PointToPlaneErrorGlobal.operator ⟨dst, src, n⟩ q t q_dst t_dst).2 := by
  refine ⟨?_, ?_, ?_⟩
  · simp only [PointToPlaneError.operator, Vec3.smul_def]
    ring
  · exact Vec3.dot_smul c _ n
  · have h : (PointToPlaneErrorGlobal.operator ⟨dst, src, c • n⟩ q t q_dst t_dst).2 =
        Vec3.dot ((mapQuaternion q).transformVector src + mapVector3 t -
          ((mapQuaternion q_dst).transformVector dst + mapVector3 t_dst))
          ((mapQuaternion q_dst).transformVector (c • n)) := rfl
    rw [h, Quat.transformVector_smul, Vec3.dot_smul]
    rfl

/-- The all-zero quaternion block leaves every vector fixed under the Eigen
product. -/
theorem transformVector_zero_block [CommRing T] (v : Vec3 T) :
    (mapQuaternion (![0, 0, 0, 0] : Fin 4 → T)).transformVector v = v := by
  rw [Quat.transformVector_components]
  ext <;> simp [mapQuaternion]

/-- The Eigen product does not change when all four coefficients of the block
are negated. -/
theorem transformVector_neg_block [CommRing T] (q : Fin 4 → T) (v : Vec3 T) :
    (mapQuaternion (-q)).transformVector v = (mapQuaternion q).transformVector v := by
  simp only [Quat.transformVector_components, mapQuaternion, Pi.neg_apply]
  ext <;> simp only <;> ring

/-- The Eigen product commutes with subtraction of vectors. -/
theorem Quat.transformVector_sub [CommRing T] (q : Quat T) (a b : Vec3 T) :
    q.transformVector (a - b) = q.transformVector a - q.transformVector b := by
  simp only [Quat.transformVector_components, Vec3.sub_def]
  ext <;> simp only <;> ring

/-- For unit quaternions the Eigen product with `a·b` is the composition of the
Eigen products with `a` and with `b`. -/
theorem Quat.transformVector_mul [CommRing T] (a b : Quat T) (v : Vec3 T)
    (ha : a.squaredNorm = 1) (hb : b.squaredNorm = 1) :
    (a.mul b).transformVector v = a.transformVector (b.transformVector v) := by
  have ha1 : a.x * a.x + a.y * a.y + a.z * a.z + a.w * a.w = 1 := ha
  have hb1 : b.x * b.x + b.y * b.y + b.z * b.z + b.w * b.w = 1 := hb
  simp only [Quat.transformVector_components, Quat.mul]
  ext
  · simp only
    linear_combination
      (2 * b.w * (b.y * v.z - b.z * v.y) + 2 * (b.y * (b.x * v.y - b.y * v.x) - b.z * (b.z * v.x - b.x * v.z))) * ha1 +
        (2 * a.w * (a.y * v.z - a.z * v.y) + 2 * (a.y * (a.x * v.y - a.y * v.x) - a.z * (a.z * v.x - a.x * v.z))) * hb1
  · simp only
    linear_combination
      (2 * b.w * (b.z * v.x - b.x * v.z) + 2 * (b.z * (b.y * v.z - b.z * v.y) - b.x * (b.x * v.y - b.y * v.x))) * ha1 +
        (2 * a.w * (a.z * v.x - a.x * v.z) + 2 * (a.z * (a.y * v.z - a.z * v.y) - a.x * (a.x * v.y - a.y * v.x))) * hb1
  · simp only
    linear_combination
      (2 * b.w * (b.x * v.y - b.y * v.x) + 2 * (b.x * (b.z * v.x - b.x * v.z) - b.y * (b.y * v.z - b.z * v.y))) * ha1 +
        (2 * a.w * (a.x * v.y - a.y * v.x) + 2 * (a.x * (a.z * v.x - a.x * v.z) - a.y * (a.y * v.z - a.z * v.y))) * hb1

/-- The defect of the Eigen product from preserving dot products is a multiple
of `squaredNorm − 1` (a polynomial identity in the raw coefficients). -/
theorem Quat.transformVector_dot_defect [CommRing T] (q : Quat T) (a b : Vec3 T) :
    (q.transformVector a).dot (q.transformVector b) - a.dot b =
      (q.squaredNorm - 1) *
        (2 * a.dot b - (q.transformVector a).dot b - a.dot (q.transformVector b)) := by
  simp only [Quat.transformVector_components, Vec3.dot, Quat.squaredNorm]
  ring

/-- For a unit quaternion the Eigen product preserves dot products. -/
theorem Quat.transformVector_dot [CommRing T] (q : Quat T) (a b : Vec3 T)
    (h : q.squaredNorm = 1) :
    (q.transformVector a).dot (q.transformVector b) = a.dot b := by
  have hd := Quat.transformVector_dot_defect q a b
  rw [h, sub_self, zero_mul] at hd
  exact sub_eq_zero.mp hd

/-- Reading back the block of a quaternion. -/
theorem mapQuaternion_toBlock (q : Quat T) : mapQuaternion q.toBlock = q := rfl

/-- Reading back the block of a vector. -/
theorem mapVector3_toBlock (v : Vec3 T) : mapVector3 v.toBlock = v := rfl

/-- What `PointToPointErrorGlobal` returns, as a vector expression. -/
theorem PointToPointErrorGlobal_eq [CommRing T] (dst src : Vec3 T)
    (q : Fin 4 → T) (t : Fin 3 → T) (q_dst : Fin 4 → T) (t_dst : Fin 3 → T) :
    (PointToPointErrorGlobal.operator ⟨dst, src⟩ q t q_dst t_dst).2 =
      (mapQuaternion q).transformVector src + mapVector3 t -
        ((mapQuaternion q_dst).transformVector dst + mapVector3 t_dst) := rfl

/-- What `PointToPlaneErrorGlobal` returns, as a vector expression. -/
theorem PointToPlaneErrorGlobal_eq [CommRing T] (dst src nor : Vec3 T)
    (q : Fin 4 → T) (t : Fin 3 → T) (q_dst : Fin 4 → T) (t_dst : Fin 3 → T) :
    (PointToPlaneErrorGlobal.operator ⟨dst, src, nor⟩ q t q_dst t_dst).2 =
      Vec3.dot ((mapQuaternion q).transformVector src + mapVector3 t -
        ((mapQuaternion q_dst).transformVector dst + mapVector3 t_dst))
        ((mapQuaternion q_dst).transformVector nor) := rfl

/-- A common rigid motion `(g, t_g)` applied to both poses rotates the
difference of the two transformed points by `g`. -/
theorem gauge_difference [CommRing T] (g a b : Quat T) (src dst ts td tg : Vec3 T)
    (hg : g.squaredNorm = 1) (ha : a.squaredNorm = 1) (hb : b.squaredNorm = 1) :
    (g.mul a).transformVector src + (g.transformVector ts + tg) -
        ((g.mul b).transformVector dst + (g.transformVector td + tg)) =
      g.transformVector (a.transformVector src + ts - (b.transformVector dst + td)) := by
  rw [Quat.transformVector_mul g a src hg ha, Quat.transformVector_mul g b dst hg hb,
    Quat.transformVector_sub, Quat.transformVector_add, Quat.transformVector_add]
  simp only [Vec3.add_def, Vec3.sub_def]
  ext <;> simp only <;> ring

/-- Cauchy-Schwarz for 3-vectors. -/
theorem Vec3.dot_sq_le [LinearOrderedField T] (a b : Vec3 T) :
    a.dot b ^ 2 ≤ a.squaredNorm * b.squaredNorm := by
  simp only [Vec3.dot, Vec3.squaredNorm]
  nlinarith [sq_nonneg (a.x * b.y - a.y * b.x), sq_nonneg (a.y * b.z - a.z * b.y),
    sq_nonneg (a.z * b.x - a.x * b.z)]

/-! ## The claims, continued -/

/-- C11. Every quaternion-based residual reads its rotation block through the
same map, coefficients `x, y, z` in entries `0, 1, 2` and `w` last in entry `3`.
Under that layout the 90° rotation about Z (`w = √2/2`, `x = y = 0`,
`z = √2/2`), `src = (1,0,0)`, `dst = (0,1,0)`, zero translation gives the
point-to-point residual `(0,0,0)`; the same four numbers laid out `w` first
give `(1,−1,0)` instead. -/
theorem quaternion_block_layout (T : Type) [CommRing T]
    (dst src nor : Vec3 T) (q q_dst : Fin 4 → T) (tr tr_dst : Fin 3 → T) :
    (PointToPointError_EigenQuaternion.operator ⟨dst, src⟩ q tr).2 =
        (Quat.mk (q 0) (q 1) (q 2) (q 3)).transformVector src + mapVector3 tr - dst ∧
    (PointToPlaneError_EigenQuaternion.operator ⟨dst, src, nor⟩ q tr).2 =
        Vec3.dot ((Quat.mk (q 0) (q 1) (q 2) (q 3)).transformVector src + mapVector3 tr - dst)
          nor ∧
    (PointToPointErrorGlobal.operator ⟨dst, src⟩ q tr q_dst tr_dst).2 =
        (Quat.mk (q 0) (q 1) (q 2) (q 3)).transformVector src + mapVector3 tr -
          ((Quat.mk (q_dst 0) (q_dst 1) (q_dst 2) (q_dst 3)).transformVector dst +
            mapVector3 tr_dst) ∧
    (PointToPlaneErrorGlobal.operator ⟨dst, src, nor⟩ q tr q_dst tr_dst).2 =
        Vec3.dot ((Quat.mk (q 0) (q 1) (q 2) (q 3)).transformVector src + mapVector3 tr -
          ((Quat.mk (q_dst 0) (q_dst 1) (q_dst 2) (q_dst 3)).transformVector dst +
            mapVector3 tr_dst))
          ((Quat.mk (q_dst 0) (q_dst 1) (q_dst 2) (q_dst 3)).transformVector nor) ∧
    (PointToPointError_EigenQuaternion.operator
        (⟨⟨0, 1, 0⟩, ⟨1, 0, 0⟩⟩ : PointToPointError_EigenQuaternion ℝ)
        ![0, 0, Real.sqrt 2 / 2, Real.sqrt 2 / 2] ![0, 0, 0]).2 = ⟨0, 0, 0⟩ ∧
    (PointToPointError_EigenQuaternion.operator
        (⟨⟨0, 1, 0⟩, ⟨1, 0, 0⟩⟩ : PointToPointError_EigenQuaternion ℝ)
        ![Real.sqrt 2 / 2, 0, 0, Real.sqrt 2 / 2] ![0, 0, 0]).2 = ⟨1, -1, 0⟩ := by
  refine ⟨rfl, rfl, rfl, rfl, ?_, ?_⟩
  · have h := half_sqrt_two_sq
    simp only [PointToPointError_EigenQuaternion.operator, Quat.transformVector_components,
      mapQuaternion_cons, mapVector3_cons, Vec3.add_def]
    ext
    · simp only
      linear_combination (-2 : ℝ) * h
    · simp only
      linear_combination (2 : ℝ) * h
    · simp only
      ring
  · simp only [PointToPointError_EigenQuaternion.operator, Quat.transformVector_components,
      mapQuaternion_cons, mapVector3_cons, Vec3.add_def]
    ext <;> simp only <;> ring

/-- C12, as amended. With `src = (0,0,1)`, `dst = (0,0,0)`, `normal = (0,0,1)`,
identity rotation and translation `(0,0,2)`, the fixed point-to-plane residual
is `3` in both encodings: the quaternion functor at the identity block, and
`PointToPlaneError` at `camera = (0,0,0,0,0,2)`. -/
theorem PointToPlane_scenario (T : Type) [LinearOrderedField T] (sqrt cos sin : T → T) :
    (PointToPlaneError_EigenQuaternion.operator
        (⟨⟨0, 0, 0⟩, ⟨0, 0, 1⟩, ⟨0, 0, 1⟩⟩ : PointToPlaneError_EigenQuaternion T)
        ![0, 0, 0, 1] ![0, 0, 2]).2 = 3 ∧
    (PointToPlaneError.operator (ceres.AngleAxisRotatePoint sqrt cos sin)
        (⟨⟨0, 0, 0⟩, ⟨0, 0, 1⟩, ⟨0, 0, 1⟩⟩ : PointToPlaneError T)
        ![0, 0, 0, 0, 0, 2]).2 = 3 := by
  obtain ⟨h0, h1, h2, h3, h4, h5⟩ := camera_cons (0 : T) 0 0 0 0 2
  constructor
  · simp only [PointToPlaneError_EigenQuaternion.operator, transformVector_identity,
      mapVector3_cons, Vec3.add_def, Vec3.sub_def, Vec3.dot]
    norm_num
  · simp only [PointToPlaneError.operator, ceres.AngleAxisRotatePoint, h0, h1, h2, h3, h4, h5]
    norm_num

/-- C12, counterexample. On `ℚ` the scenario residual is not `2`, in either
encoding. -/
theorem PointToPlane_scenario_not_two :
    (PointToPlaneError_EigenQuaternion.operator
        (⟨⟨0, 0, 0⟩, ⟨0, 0, 1⟩, ⟨0, 0, 1⟩⟩ : PointToPlaneError_EigenQuaternion ℚ)
        ![0, 0, 0, 1] ![0, 0, 2]).2 ≠ 2 ∧
    (PointToPlaneError.operator (ceres.AngleAxisRotatePoint id id id)
        (⟨⟨0, 0, 0⟩, ⟨0, 0, 1⟩, ⟨0, 0, 1⟩⟩ : PointToPlaneError ℚ)
        ![0, 0, 0, 0, 0, 2]).2 ≠ 2 := by
  obtain ⟨h0, h1, h2, h3, h4, h5⟩ := camera_cons (0 : ℚ) 0 0 0 0 2
  constructor
  · simp only [PointToPlaneError_EigenQuaternion.operator, transformVector_identity,
      mapVector3_cons, Vec3.add_def, Vec3.sub_def, Vec3.dot]
    norm_num
  · simp only [PointToPlaneError.operator, ceres.AngleAxisRotatePoint, h0, h1, h2, h3, h4, h5]
    norm_num

/-- C13, as amended. Scaling the stored normal by `c > 0` multiplies each
point-to-plane residual (`PointToPlaneError`, `PointToPlaneError_EigenQuaternion`,
`PointToPlaneErrorGlobal`) by `c`; so the residual keeps its sign and its zeros,
not its value. -/
theorem PointToPlane_scale_normal (T : Type) [LinearOrderedField T]
    (rotatePoint : (Fin 3 → T) → Vec3 T → Vec3 T) (c : T)
    (dst src n : Vec3 T) (q : Fin 4 → T) (t : Fin 3 → T) (q_dst : Fin 4 → T) (t_dst : Fin 3 → T)
    (camera : Fin 6 → T) (hc : 0 < c) :
    ((PointToPlaneError.operator rotatePoint ⟨dst, src, c • n⟩ camera).2 =
        c * (PointToPlaneError.operator rotatePoint ⟨dst, src, n⟩ camera).2 ∧
     (PointToPlaneError_EigenQuaternion.operator ⟨dst, src, c • n⟩ q t).2 =
        c * (PointToPlaneError_EigenQuaternion.operator ⟨dst, src, n⟩ q t).2 ∧
     (PointToPlaneErrorGlobal.operator ⟨dst, src, c • n⟩ q t q_dst t_dst).2 =
        c * (PointToPlaneErrorGlobal.operator ⟨dst, src, n⟩ q t q_dst t_dst).2) ∧
    ((0 < (PointToPlaneError.operator rotatePoint ⟨dst, src, c • n⟩ camera).2 ↔
        0 < (PointToPlaneError.operator rotatePoint ⟨dst, src, n⟩ camera).2) ∧
     (0 < (PointToPlaneError_EigenQuaternion.operator ⟨dst, src, c • n⟩ q t).2 ↔
        0 < (PointToPlaneError_EigenQuaternion.operator ⟨dst, src, n⟩ q t).2) ∧
     (0 < (PointToPlaneErrorGlobal.operator ⟨dst, src, c • n⟩ q t q_dst t_dst).2 ↔
        0 < (PointToPlaneErrorGlobal.operator ⟨dst, src, n⟩ q t q_dst t_dst).2)) ∧
    (((PointToPlaneError.operator rotatePoint ⟨dst, src, c • n⟩ camera).2 = 0 ↔
        (PointToPlaneError.operator rotatePoint ⟨dst, src, n⟩ camera).2 = 0) ∧
     ((PointToPlaneError_EigenQuaternion.operator ⟨dst, src, c • n⟩ q t).2 = 0 ↔
        (PointToPlaneError_EigenQuaternion.operator ⟨dst, src, n⟩ q t).2 = 0) ∧
     ((PointToPlaneErrorGlobal.operator ⟨dst, src, c • n⟩ q t q_dst t_dst).2 = 0 ↔
        (PointToPlaneErrorGlobal.operator ⟨dst, src, n⟩ q t q_dst t_dst).2 = 0)) := by
  obtain ⟨h1, h2, h3⟩ := PointToPlane_smul_normal rotatePoint c dst src n q t q_dst t_dst camera
  rw [h1, h2, h3]
  refine ⟨⟨rfl, rfl, rfl⟩, ⟨?_, ?_, ?_⟩, ⟨?_, ?_, ?_⟩⟩
  · exact mul_pos_iff_of_pos_left hc
  · exact mul_pos_iff_of_pos_left hc
  · exact mul_pos_iff_of_pos_left hc
  · exact mul_eq_zero.trans (or_iff_right hc.ne.symm)
  · exact mul_eq_zero.trans (or_iff_right hc.ne.symm)
  · exact mul_eq_zero.trans (or_iff_right hc.ne.symm)

/-- Witness of C13 on `ℚ`: doubling the normal `(0,0,1)` in the scenario of C12
doubles the residual from `3` to `6`. -/
theorem PointToPlane_scale_normal_witness :
    (0 : ℚ) < 2 ∧
    (PointToPlaneError_EigenQuaternion.operator
        (⟨⟨0, 0, 0⟩, ⟨0, 0, 1⟩, (2 : ℚ) • ⟨0, 0, 1⟩⟩ : PointToPlaneError_EigenQuaternion ℚ)
        ![0, 0, 0, 1] ![0, 0, 2]).2 =
      2 * (PointToPlaneError_EigenQuaternion.operator
        (⟨⟨0, 0, 0⟩, ⟨0, 0, 1⟩, ⟨0, 0, 1⟩⟩ : PointToPlaneError_EigenQuaternion ℚ)
        ![0, 0, 0, 1] ![0, 0, 2]).2 :=
  ⟨by norm_num,
   (PointToPlane_scale_normal ℚ (fun _ v => v) 2 ⟨0, 0, 0⟩ ⟨0, 0, 1⟩ ⟨0, 0, 1⟩
      ![0, 0, 0, 1] ![0, 0, 2] ![0, 0, 0, 1] ![0, 0, 0] ![0, 0, 0, 0, 0, 2]
      (by norm_num)).1.2.1⟩

/-- C13, counterexample. On `ℚ`, with `c = 2 > 0` and the data of the scenario
of C12, the residual with stored normal `c·n` is `6` and the residual with
stored normal `n` is `3`: they are not equal. -/
theorem PointToPlane_scale_normal_not_invariant :
    (0 : ℚ) < 2 ∧
    (PointToPlaneError_EigenQuaternion.operator
        (⟨⟨0, 0, 0⟩, ⟨0, 0, 1⟩, (2 : ℚ) • ⟨0, 0, 1⟩⟩ : PointToPlaneError_EigenQuaternion ℚ)
        ![0, 0, 0, 1] ![0, 0, 2]).2 = 6 ∧
    (PointToPlaneError_EigenQuaternion.operator
        (⟨⟨0, 0, 0⟩, ⟨0, 0, 1⟩, ⟨0, 0, 1⟩⟩ : PointToPlaneError_EigenQuaternion ℚ)
        ![0, 0, 0, 1] ![0, 0, 2]).2 = 3 ∧
    (PointToPlaneError_EigenQuaternion.operator
        (⟨⟨0, 0, 0⟩, ⟨0, 0, 1⟩, (2 : ℚ) • ⟨0, 0, 1⟩⟩ : PointToPlaneError_EigenQuaternion ℚ)
        ![0, 0, 0, 1] ![0, 0, 2]).2 ≠
      (PointToPlaneError_EigenQuaternion.operator
        (⟨⟨0, 0, 0⟩, ⟨0, 0, 1⟩, ⟨0, 0, 1⟩⟩ : PointToPlaneError_EigenQuaternion ℚ)
        ![0, 0, 0, 1] ![0, 0, 2]).2 := by
  refine ⟨by norm_num, ?_, ?_, ?_⟩ <;>
    · simp only [PointToPlaneError_EigenQuaternion.operator, transformVector_identity,
        mapVector3_cons, Vec3.add_def, Vec3.sub_def, Vec3.dot, Vec3.smul_def]
      norm_num

/-- C14. Negating the stored normal negates each point-to-plane residual
(`PointToPlaneError`, `PointToPlaneError_EigenQuaternion`,
`PointToPlaneErrorGlobal`), for every pose block and every `src`, `dst`, `n`. -/
theorem PointToPlane_neg_normal (T : Type) [CommRing T]
    (rotatePoint : (Fin 3 → T) → Vec3 T → Vec3 T)
    (dst src n : Vec3 T) (q : Fin 4 → T) (t : Fin 3 → T) (q_dst : Fin 4 → T) (t_dst : Fin 3 → T)
    (camera : Fin 6 → T) :
    (PointToPlaneError.operator rotatePoint ⟨dst, src, -n⟩ camera).2 =
        -(PointToPlaneError.operator rotatePoint ⟨dst, src, n⟩ camera).2 ∧
    (PointToPlaneError_EigenQuaternion.operator ⟨dst, src, -n⟩ q t).2 =
        -(PointToPlaneError_EigenQuaternion.operator ⟨dst, src, n⟩ q t).2 ∧
    (PointToPlaneErrorGlobal.operator ⟨dst, src, -n⟩ q t q_dst t_dst).2 =
        -(PointToPlaneErrorGlobal.operator ⟨dst, src, n⟩ q t q_dst t_dst).2 := by
  refine ⟨?_, ?_, ?_⟩
  · simp only [PointToPlaneError.operator, Vec3.neg_def]
    ring
  · exact Vec3.dot_neg _ n
  · have h : (PointToPlaneErrorGlobal.operator ⟨dst, src, -n⟩ q t q_dst t_dst).2 =
        Vec3.dot ((mapQuaternion q).transformVector src + mapVector3 t -
          ((mapQuaternion q_dst).transformVector dst + mapVector3 t_dst))
          ((mapQuaternion q_dst).transformVector (-n)) := rfl
    rw [h, Quat.transformVector_neg, Vec3.dot_neg]
    rfl

/-- C15. Residual evaluation has no error path: each of the six functors, on
every parameter block and every stored data, returns `true` together with all
its residual components (3 for point-to-point, 1 for point-to-plane).  No block
is checked or rejected: a non-unit block is used as it is, and the all-zero
quaternion block yields the residual `src + t − dst`. -/
theorem operator_returns_true (T : Type) [CommRing T]
    (rotatePoint : (Fin 3 → T) → Vec3 T → Vec3 T)
    (dst src nor : Vec3 T) (q q_dst : Fin 4 → T) (t t_dst : Fin 3 → T) (camera : Fin 6 → T) :
    PointToPointErrorGlobal.operator ⟨dst, src⟩ q t q_dst t_dst =
        (true, (mapQuaternion q).transformVector src + mapVector3 t -
          ((mapQuaternion q_dst).transformVector dst + mapVector3 t_dst)) ∧
    PointToPlaneErrorGlobal.operator ⟨dst, src, nor⟩ q t q_dst t_dst =
        (true, Vec3.dot ((mapQuaternion q).transformVector src + mapVector3 t -
          ((mapQuaternion q_dst).transformVector dst + mapVector3 t_dst))
          ((mapQuaternion q_dst).transformVector nor)) ∧
    PointToPointError_EigenQuaternion.operator ⟨dst, src⟩ q t =
        (true, (mapQuaternion q).transformVector src + mapVector3 t - dst) ∧
    PointToPointError_CeresAngleAxis.operator rotatePoint ⟨dst, src⟩ camera =
        (true, rotatePoint ![camera 0, camera 1, camera 2] src +
          ⟨camera 3, camera 4, camera 5⟩ - dst) ∧
    PointToPlaneError.operator rotatePoint ⟨dst, src, nor⟩ camera =
        (true, Vec3.dot (rotatePoint ![camera 0, camera 1, camera 2] src +
          ⟨camera 3, camera 4, camera 5⟩ - dst) nor) ∧
    PointToPlaneError_EigenQuaternion.operator ⟨dst, src, nor⟩ q t =
        (true, Vec3.dot ((mapQuaternion q).transformVector src + mapVector3 t - dst) nor) ∧
    PointToPointError_EigenQuaternion.operator ⟨dst, src⟩ ![0, 0, 0, 0] t =
        (true, src + mapVector3 t - dst) ∧
    PointToPlaneErrorGlobal.operator ⟨dst, src, nor⟩ ![0, 0, 0, 0] t ![0, 0, 0, 0] t_dst =
        (true, Vec3.dot (src + mapVector3 t - (dst + mapVector3 t_dst)) nor) := by
  refine ⟨rfl, rfl, rfl, rfl, rfl, rfl, ?_, ?_⟩
  · simp only [PointToPointError_EigenQuaternion.operator, transformVector_zero_block]
    rfl
  · simp only [PointToPlaneErrorGlobal.operator, transformVector_zero_block]

/-- C16. The quaternion residuals use the raw coefficients of their rotation
block: with `u = (x, y, z)` the rotated point is
`v + 2w·(u × v) + 2·u × (u × v)`, with no normalization.  So on the non-unit
block `x = y = 0, z = 2, w = 0` (squared norm `4`) with `src = (1,0,0)` the
`PointToPointError_EigenQuaternion` residual is `(−7,0,0)`, while on the
normalized block `q/‖q‖ = (0,0,1,0)` it is `(−1,0,0)`. -/
theorem quaternion_not_normalized (T : Type) [CommRing T]
    (dst src : Vec3 T) (q : Fin 4 → T) (t : Fin 3 → T) :
    (PointToPointError_EigenQuaternion.operator ⟨dst, src⟩ q t).2 =
        (src + (2 * q 3) • (Vec3.cross ⟨q 0, q 1, q 2⟩ src) +
          (2 : T) • (Vec3.cross ⟨q 0, q 1, q 2⟩ (Vec3.cross ⟨q 0, q 1, q 2⟩ src))) +
          mapVector3 t - dst ∧
    (mapQuaternion (![0, 0, 2, 0] : Fin 4 → ℚ)).squaredNorm = 2 * 2 ∧
    (∀ i, (![0, 0, 1, 0] : Fin 4 → ℚ) i = (![0, 0, 2, 0] : Fin 4 → ℚ) i / 2) ∧
    (PointToPointError_EigenQuaternion.operator
        (⟨⟨0, 0, 0⟩, ⟨1, 0, 0⟩⟩ : PointToPointError_EigenQuaternion ℚ)
        ![0, 0, 2, 0] ![0, 0, 0]).2 = ⟨-7, 0, 0⟩ ∧
    (PointToPointError_EigenQuaternion.operator
        (⟨⟨0, 0, 0⟩, ⟨1, 0, 0⟩⟩ : PointToPointError_EigenQuaternion ℚ)
        ![0, 0, 1, 0] ![0, 0, 0]).2 = ⟨-1, 0, 0⟩ ∧
    (PointToPointError_EigenQuaternion.operator
        (⟨⟨0, 0, 0⟩, ⟨1, 0, 0⟩⟩ : PointToPointError_EigenQuaternion ℚ)
        ![0, 0, 2, 0] ![0, 0, 0]).2 ≠
      (PointToPointError_EigenQuaternion.operator
        (⟨⟨0, 0, 0⟩, ⟨1, 0, 0⟩⟩ : PointToPointError_EigenQuaternion ℚ)
        ![0, 0, 1, 0] ![0, 0, 0]).2 := by
  have h7 : (PointToPointError_EigenQuaternion.operator
        (⟨⟨0, 0, 0⟩, ⟨1, 0, 0⟩⟩ : PointToPointError_EigenQuaternion ℚ)
        ![0, 0, 2, 0] ![0, 0, 0]).2 = ⟨-7, 0, 0⟩ := by
    simp only [PointToPointError_EigenQuaternion.operator, Quat.transformVector_components,
      mapQuaternion_cons, mapVector3_cons, Vec3.add_def]
    norm_num
  have h1 : (PointToPointError_EigenQuaternion.operator
        (⟨⟨0, 0, 0⟩, ⟨1, 0, 0⟩⟩ : PointToPointError_EigenQuaternion ℚ)
        ![0, 0, 1, 0] ![0, 0, 0]).2 = ⟨-1, 0, 0⟩ := by
    simp only [PointToPointError_EigenQuaternion.operator, Quat.transformVector_components,
      mapQuaternion_cons, mapVector3_cons, Vec3.add_def]
    norm_num
  refine ⟨?_, ?_, ?_, h7, h1, ?_⟩
  · simp only [PointToPointError_EigenQuaternion.operator, Quat.transformVector_components,
      mapQuaternion, mapVector3, Vec3.add_def, Vec3.sub_def, Vec3.smul_def, Vec3.cross]
    ext <;> simp only <;> ring
  · simp only [mapQuaternion_cons, Quat.squaredNorm]
    norm_num
  · intro i
    fin_cases i <;> simp
  · rw [h7, h1]
    intro h
    have hx := congrArg Vec3.x h
    norm_num at hx

/-- C17. Gauge invariance of the global residuals: for unit quaternion blocks
`g`, `q_src`, `q_dst` and any translations, replacing the two poses by
`(g·q_src, R(g)·t_src + t_g)` and `(g·q_dst, R(g)·t_dst + t_g)` leaves the
`PointToPlaneErrorGlobal` residual unchanged and maps the
`PointToPointErrorGlobal` residual `r` to `R(g)·r`, whose squared norm is that
of `r`; `R(g) v = g·v·g⁻¹`. -/
theorem Global_gauge_invariance (T : Type) [LinearOrderedField T]
    (dst src nor : Vec3 T) (g q_src q_dst : Fin 4 → T) (t_g t_src t_dst : Fin 3 → T)
    (hg : (mapQuaternion g).squaredNorm = 1)
    (h_src : (mapQuaternion q_src).squaredNorm = 1)
    (h_dst : (mapQuaternion q_dst).squaredNorm = 1) :
    (PointToPlaneErrorGlobal.operator ⟨dst, src, nor⟩
        ((mapQuaternion g).mul (mapQuaternion q_src)).toBlock
        (conjugation (mapQuaternion g) (mapVector3 t_src) + mapVector3 t_g).toBlock
        ((mapQuaternion g).mul (mapQuaternion q_dst)).toBlock
        (conjugation (mapQuaternion g) (mapVector3 t_dst) + mapVector3 t_g).toBlock).2 =
      (PointToPlaneErrorGlobal.operator ⟨dst, src, nor⟩ q_src t_src q_dst t_dst).2 ∧
    (PointToPointErrorGlobal.operator ⟨dst, src⟩
        ((mapQuaternion g).mul (mapQuaternion q_src)).toBlock
        (conjugation (mapQuaternion g) (mapVector3 t_src) + mapVector3 t_g).toBlock
        ((mapQuaternion g).mul (mapQuaternion q_dst)).toBlock
        (conjugation (mapQuaternion g) (mapVector3 t_dst) + mapVector3 t_g).toBlock).2 =
      conjugation (mapQuaternion g)
        (PointToPointErrorGlobal.operator ⟨dst, src⟩ q_src t_src q_dst t_dst).2 ∧
    (PointToPointErrorGlobal.operator ⟨dst, src⟩
        ((mapQuaternion g).mul (mapQuaternion q_src)).toBlock
        (conjugation (mapQuaternion g) (mapVector3 t_src) + mapVector3 t_g).toBlock
        ((mapQuaternion g).mul (mapQuaternion q_dst)).toBlock
        (conjugation (mapQuaternion g) (mapVector3 t_dst) + mapVector3 t_g).toBlock).2.squaredNorm =
      (PointToPointErrorGlobal.operator ⟨dst, src⟩ q_src t_src q_dst t_dst).2.squaredNorm := by
  have hp := gauge_difference (mapQuaternion g) (mapQuaternion q_src) (mapQuaternion q_dst)
    src dst (mapVector3 t_src) (mapVector3 t_dst) (mapVector3 t_g) hg h_src h_dst
  simp only [PointToPointErrorGlobal_eq, PointToPlaneErrorGlobal_eq,
    conjugation_eq_transformVector _ _ hg, mapQuaternion_toBlock, mapVector3_toBlock, hp]
  refine ⟨?_, trivial, ?_⟩
  · rw [Quat.transformVector_mul _ _ nor hg h_dst]
    exact Quat.transformVector_dot _ _ _ hg
  · exact Quat.transformVector_dot _ _ _ hg

/-- Witness of C17 on `ℚ`: gauge block `(3/5, 0, 0, 4/5)`, source block
`(0, 4/5, 0, 3/5)`, destination block `(0, 0, 3/5, 4/5)`, all of unit norm. -/
theorem Global_gauge_invariance_witness :
    (mapQuaternion (![3/5, 0, 0, 4/5] : Fin 4 → ℚ)).squaredNorm = 1 ∧
    (mapQuaternion (![0, 4/5, 0, 3/5] : Fin 4 → ℚ)).squaredNorm = 1 ∧
    (mapQuaternion (![0, 0, 3/5, 4/5] : Fin 4 → ℚ)).squaredNorm = 1 ∧
    (PointToPlaneErrorGlobal.operator (⟨⟨0, 1, 0⟩, ⟨1, 2, 3⟩, ⟨0, 0, 1⟩⟩ : PointToPlaneErrorGlobal ℚ)
        ((mapQuaternion ![3/5, 0, 0, 4/5]).mul (mapQuaternion ![0, 4/5, 0, 3/5])).toBlock
        (conjugation (mapQuaternion ![3/5, 0, 0, 4/5]) (mapVector3 ![1, 0, 2]) +
          mapVector3 (![7, -1, 4] : Fin 3 → ℚ)).toBlock
        ((mapQuaternion ![3/5, 0, 0, 4/5]).mul (mapQuaternion ![0, 0, 3/5, 4/5])).toBlock
        (conjugation (mapQuaternion ![3/5, 0, 0, 4/5]) (mapVector3 ![0, 1, 1]) +
          mapVector3 (![7, -1, 4] : Fin 3 → ℚ)).toBlock).2 =
      (PointToPlaneErrorGlobal.operator (⟨⟨0, 1, 0⟩, ⟨1, 2, 3⟩, ⟨0, 0, 1⟩⟩ : PointToPlaneErrorGlobal ℚ)
        ![0, 4/5, 0, 3/5] ![1, 0, 2] ![0, 0, 3/5, 4/5] ![0, 1, 1]).2 :=
  ⟨by norm_num [mapQuaternion, Quat.squaredNorm],
   by norm_num [mapQuaternion, Quat.squaredNorm],
   by norm_num [mapQuaternion, Quat.squaredNorm],
   (Global_gauge_invariance ℚ ⟨0, 1, 0⟩ ⟨1, 2, 3⟩ ⟨0, 0, 1⟩
      ![3/5, 0, 0, 4/5] ![0, 4/5, 0, 3/5] ![0, 0, 3/5, 4/5] ![7, -1, 4] ![1, 0, 2] ![0, 1, 1]
      (by norm_num [mapQuaternion, Quat.squaredNorm])
      (by norm_num [mapQuaternion, Quat.squaredNorm])
      (by norm_num [mapQuaternion, Quat.squaredNorm])).1⟩

/-- C18. Quaternion double cover: negating all four coefficients of a rotation
block (unit or not) leaves the residuals of `PointToPointError_EigenQuaternion`,
`PointToPlaneError_EigenQuaternion`, `PointToPointErrorGlobal` and
`PointToPlaneErrorGlobal` unchanged; for the global functors the source block,
the destination block, or both may be negated. -/
theorem quaternion_double_cover (T : Type) [CommRing T]
    (dst src nor : Vec3 T) (q q_dst : Fin 4 → T) (t t_dst : Fin 3 → T) :
    (PointToPointError_EigenQuaternion.operator ⟨dst, src⟩ (-q) t).2 =
        (PointToPointError_EigenQuaternion.operator ⟨dst, src⟩ q t).2 ∧
    (PointToPlaneError_EigenQuaternion.operator ⟨dst, src, nor⟩ (-q) t).2 =
        (PointToPlaneError_EigenQuaternion.operator ⟨dst, src, nor⟩ q t).2 ∧
    (PointToPointErrorGlobal.operator ⟨dst, src⟩ (-q) t q_dst t_dst).2 =
        (PointToPointErrorGlobal.operator ⟨dst, src⟩ q t q_dst t_dst).2 ∧
    (PointToPointErrorGlobal.operator ⟨dst, src⟩ q t (-q_dst) t_dst).2 =
        (PointToPointErrorGlobal.operator ⟨dst, src⟩ q t q_dst t_dst).2 ∧
    (PointToPointErrorGlobal.operator ⟨dst, src⟩ (-q) t (-q_dst) t_dst).2 =
        (PointToPointErrorGlobal.operator ⟨dst, src⟩ q t q_dst t_dst).2 ∧
    (PointToPlaneErrorGlobal.operator ⟨dst, src, nor⟩ (-q) t q_dst t_dst).2 =
        (PointToPlaneErrorGlobal.operator ⟨dst, src, nor⟩ q t q_dst t_dst).2 ∧
    (PointToPlaneErrorGlobal.operator ⟨dst, src, nor⟩ q t (-q_dst) t_dst).2 =
        (PointToPlaneErrorGlobal.operator ⟨dst, src, nor⟩ q t q_dst t_dst).2 ∧
    (PointToPlaneErrorGlobal.operator ⟨dst, src, nor⟩ (-q) t (-q_dst) t_dst).2 =
        (PointToPlaneErrorGlobal.operator ⟨dst, src, nor⟩ q t q_dst t_dst).2 := by
  simp only [PointToPointError_EigenQuaternion.operator,
    PointToPlaneError_EigenQuaternion.operator, PointToPointErrorGlobal.operator,
    PointToPlaneErrorGlobal.operator, transformVector_neg_block, and_self]

/-- C19. For a unit normal the squared point-to-plane residual is at most the
squared norm of the point-to-point residual of the same pose: for
`PointToPlaneError_EigenQuaternion` against `PointToPointError_EigenQuaternion`
(any block `q`), and, for a unit destination block, for
`PointToPlaneErrorGlobal` against `PointToPointErrorGlobal`. -/
theorem PointToPlane_le_PointToPoint (T : Type) [LinearOrderedField T]
    (dst src n : Vec3 T) (q : Fin 4 → T) (t : Fin 3 → T) (q_dst : Fin 4 → T) (t_dst : Fin 3 → T)
    (hn : n.squaredNorm = 1) (h_dst : (mapQuaternion q_dst).squaredNorm = 1) :
    (PointToPlaneError_EigenQuaternion.operator ⟨dst, src, n⟩ q t).2 ^ 2 ≤
        (PointToPointError_EigenQuaternion.operator ⟨dst, src⟩ q t).2.squaredNorm ∧
    (PointToPlaneErrorGlobal.operator ⟨dst, src, n⟩ q t q_dst t_dst).2 ^ 2 ≤
        (PointToPointErrorGlobal.operator ⟨dst, src⟩ q t q_dst t_dst).2.squaredNorm := by
  constructor
  · have h := Vec3.dot_sq_le ((mapQuaternion q).transformVector src + mapVector3 t - dst) n
    rw [hn, mul_one] at h
    exact h
  · have h := Vec3.dot_sq_le ((mapQuaternion q).transformVector src + mapVector3 t -
      ((mapQuaternion q_dst).transformVector dst + mapVector3 t_dst))
      ((mapQuaternion q_dst).transformVector n)
    have hr : ((mapQuaternion q_dst).transformVector n).squaredNorm = 1 := by
      rw [Vec3.squaredNorm, Quat.transformVector_dot _ _ _ h_dst]
      exact hn
    rw [hr, mul_one] at h
    exact h

/-- Witness of C19 on `ℚ`: unit normal `(0,0,1)` and unit destination block
`(0, 4/5, 0, 3/5)`. -/
theorem PointToPlane_le_PointToPoint_witness :
    (⟨0, 0, 1⟩ : Vec3 ℚ).squaredNorm = 1 ∧
    (mapQuaternion (![0, 4/5, 0, 3/5] : Fin 4 → ℚ)).squaredNorm = 1 ∧
    (PointToPlaneErrorGlobal.operator (⟨⟨0, 1, 0⟩, ⟨1, 2, 3⟩, ⟨0, 0, 1⟩⟩ : PointToPlaneErrorGlobal ℚ)
        ![3/5, 0, 0, 4/5] ![1, 0, 2] ![0, 4/5, 0, 3/5] ![0, 1, 1]).2 ^ 2 ≤
      (PointToPointErrorGlobal.operator (⟨⟨0, 1, 0⟩, ⟨1, 2, 3⟩⟩ : PointToPointErrorGlobal ℚ)
        ![3/5, 0, 0, 4/5] ![1, 0, 2] ![0, 4/5, 0, 3/5] ![0, 1, 1]).2.squaredNorm :=
  ⟨by norm_num [Vec3.squaredNorm, Vec3.dot],
   by norm_num [mapQuaternion, Quat.squaredNorm],
   (PointToPlane_le_PointToPoint ℚ ⟨0, 1, 0⟩ ⟨1, 2, 3⟩ ⟨0, 0, 1⟩
      ![3/5, 0, 0, 4/5] ![1, 0, 2] ![0, 4/5, 0, 3/5] ![0, 1, 1]
      (by norm_num [Vec3.squaredNorm, Vec3.dot])
      (by norm_num [mapQuaternion, Quat.squaredNorm])).2⟩

/-- C20. The fixed point-to-plane residual sees only the normal component of a
translation change: at translation `t + δ` the residual of
`PointToPlaneError_EigenQuaternion` is its residual at `t` plus `dot(δ, n)`, and
likewise for `PointToPlaneError` with `δ` added to `camera[3..5]`; hence a shift
`δ` orthogonal to `n` leaves both unchanged. -/
theorem PointToPlane_translation_shift (T : Type) [CommRing T]
    (rotatePoint : (Fin 3 → T) → Vec3 T → Vec3 T)
    (dst src n : Vec3 T) (q : Fin 4 → T) (t δ : Fin 3 → T) (camera : Fin 6 → T) :
    ((PointToPlaneError_EigenQuaternion.operator ⟨dst, src, n⟩ q (t + δ)).2 =
        (PointToPlaneError_EigenQuaternion.operator ⟨dst, src, n⟩ q t).2 +
          (mapVector3 δ).dot n ∧
     (PointToPlaneError.operator rotatePoint ⟨dst, src, n⟩
        ![camera 0, camera 1, camera 2, camera 3 + δ 0, camera 4 + δ 1, camera 5 + δ 2]).2 =
        (PointToPlaneError.operator rotatePoint ⟨dst, src, n⟩ camera).2 +
          (mapVector3 δ).dot n) ∧
    ((mapVector3 δ).dot n = 0 →
      (PointToPlaneError_EigenQuaternion.operator ⟨dst, src, n⟩ q (t + δ)).2 =
        (PointToPlaneError_EigenQuaternion.operator ⟨dst, src, n⟩ q t).2 ∧
      (PointToPlaneError.operator rotatePoint ⟨dst, src, n⟩
        ![camera 0, camera 1, camera 2, camera 3 + δ 0, camera 4 + δ 1, camera 5 + δ 2]).2 =
        (PointToPlaneError.operator rotatePoint ⟨dst, src, n⟩ camera).2) := by
  obtain ⟨h0, h1, h2, h3, h4, h5⟩ := camera_cons (camera 0) (camera 1) (camera 2)
    (camera 3 + δ 0) (camera 4 + δ 1) (camera 5 + δ 2)
  have hq : (PointToPlaneError_EigenQuaternion.operator ⟨dst, src, n⟩ q (t + δ)).2 =
      (PointToPlaneError_EigenQuaternion.operator ⟨dst, src, n⟩ q t).2 +
        (mapVector3 δ).dot n := by
    simp only [PointToPlaneError_EigenQuaternion.operator, mapVector3, Pi.add_apply,
      Vec3.add_def, Vec3.sub_def, Vec3.dot]
    ring
  have ha : (PointToPlaneError.operator rotatePoint ⟨dst, src, n⟩
        ![camera 0, camera 1, camera 2, camera 3 + δ 0, camera 4 + δ 1, camera 5 + δ 2]).2 =
      (PointToPlaneError.operator rotatePoint ⟨dst, src, n⟩ camera).2 +
        (mapVector3 δ).dot n := by
    simp only [PointToPlaneError.operator, h0, h1, h2, h3, h4, h5, mapVector3, Vec3.dot]
    ring
  refine ⟨⟨hq, ha⟩, fun h => ?_⟩
  rw [hq, ha, h, add_zero, add_zero]
  exact ⟨rfl, rfl⟩

/-- Witness of C20 on `ℚ`: with normal `(0,0,1)` the tangential shift
`δ = (5,−2,0)` leaves the residual of the scenario of C12 unchanged. -/
theorem PointToPlane_translation_shift_witness :
    (mapVector3 (![5, -2, 0] : Fin 3 → ℚ)).dot ⟨0, 0, 1⟩ = 0 ∧
    (PointToPlaneError_EigenQuaternion.operator
        (⟨⟨0, 0, 0⟩, ⟨0, 0, 1⟩, ⟨0, 0, 1⟩⟩ : PointToPlaneError_EigenQuaternion ℚ)
        ![0, 0, 0, 1] (![0, 0, 2] + ![5, -2, 0])).2 =
      (PointToPlaneError_EigenQuaternion.operator
        (⟨⟨0, 0, 0⟩, ⟨0, 0, 1⟩, ⟨0, 0, 1⟩⟩ : PointToPlaneError_EigenQuaternion ℚ)
        ![0, 0, 0, 1] ![0, 0, 2]).2 :=
  ⟨by norm_num [mapVector3_cons, Vec3.dot],
   ((PointToPlane_translation_shift ℚ (fun _ v => v) ⟨0, 0, 0⟩ ⟨0, 0, 1⟩ ⟨0, 0, 1⟩
      ![0, 0, 0, 1] ![0, 0, 2] ![5, -2, 0] ![0, 0, 0, 0, 0, 2]).2
      (by norm_num [mapVector3_cons, Vec3.dot])).1⟩

end ICPCostFunctions
